import Mathlib

set_option maxRecDepth 2000

/-!
Verification development for the lowest-carbon-ai-backend repository.

The repository is a thin orchestration layer around a generative model:
it builds prompts, invokes the model, and then defensively parses, repairs,
maps and validates the model's textual JSON output.  This file gives a
shallow embedding of that JSON-recovery and response-mapping pipeline:

* Python strings are `List Char`; Python values produced by `json.loads`
  are the inductive type `PyVal`.
* Python floats are modelled by `PyFloat`: exact rationals for finite
  values plus explicit `inf`/`nan` constructors.  Rounding of finite
  values to IEEE-754 doubles is idealized (finite values are kept exact);
  overflow to infinity and the `OverflowError` of `float(int)` are
  modelled with the 2^1024 magnitude threshold.
* `json.loads` is modelled by an executable fuel-based recursive-descent
  parser `parseVal`/`loads` following Python's `json` module grammar
  (including the non-standard `NaN`/`Infinity`/`-Infinity` constants that
  Python accepts by default).  String `\uXXXX` escapes are mapped to the
  corresponding code point without surrogate pairing; numeric underscores
  of Python float literals are not modelled.  No claim depends on these
  corners.
* Fallible Python code returns `Except Failure _`, where `Failure`
  distinguishes `fastapi.HTTPException` (status + detail) from an
  exception that no handler in the service catches (`uncaught`).

Service code under `app/services/` is translated function by function:
`_clean_json`, `_parse_response`, `_to_float`, `_map_entries`,
`_compute_summary`, `_map_to_response`, `_get_model`, `_fetch_image`
and the operation bodies.  External effects (the network call to the
model, client construction, image download) are passed in as explicit
`Except` parameters so that theorems can quantify over their outcomes.
-/

/-! ## Character classes and Python string helpers -/

/-- Whitespace recognised by Python's `json` module (`json.decoder.WHITESPACE`). -/
def isJsonWs (c : Char) : Bool :=
  c = ' ' || c = '\t' || c = '\n' || c = '\r'

/-- Whitespace stripped by Python's `str.strip()` with no argument.  The
ASCII and Latin-1 whitespace code points are listed; the rarely used
higher Unicode space characters are omitted (no claim involves them). -/
def isPyWs (c : Char) : Bool :=
  c = ' ' || c = '\t' || c = '\n' || c = '\r' || c = '\x0b' || c = '\x0c' ||
  c = '\x1c' || c = '\x1d' || c = '\x1e' || c = '\x1f' || c = '\x85' || c = '\xa0'

/-- Every JSON whitespace character is Python whitespace. -/
theorem isPyWs_of_isJsonWs {c : Char} (h : isJsonWs c = true) : isPyWs c = true := by
  simp only [isJsonWs, Bool.or_eq_true, decide_eq_true_eq] at h
  obtain ((rfl | rfl) | rfl) | rfl := h <;> rfl

/-- Unfolding of `List.isPrefixOf` into an explicit decomposition. -/
theorem isPrefixOf_ex : ∀ {p s : List Char}, p.isPrefixOf s = true → ∃ t, s = p ++ t := by
  intro p
  induction p with
  | nil => intro s _; exact ⟨s, rfl⟩
  | cons a as ih =>
    intro s h
    cases s with
    | nil => simp [List.isPrefixOf] at h
    | cons b bs =>
      simp only [List.isPrefixOf, Bool.and_eq_true, beq_iff_eq] at h
      obtain ⟨rfl, h2⟩ := h
      obtain ⟨t, rfl⟩ := ih h2
      exact ⟨t, rfl⟩

/-- A list is a prefix of itself followed by anything. -/
theorem isPrefixOf_app : ∀ (p t : List Char), p.isPrefixOf (p ++ t) = true := by
  intro p
  induction p with
  | nil => intro t; simp [List.isPrefixOf]
  | cons a as ih => intro t; simp [List.isPrefixOf, ih]

/-- Model of Python `str.strip()` applied from the left. -/
def pyStripLeft (s : List Char) : List Char := s.dropWhile isPyWs

/-- Model of Python `str.strip()` applied from the right. -/
def pyStripRight (s : List Char) : List Char := (s.reverse.dropWhile isPyWs).reverse

/-- Model of Python `str.strip()`. -/
def pyStrip (s : List Char) : List Char := pyStripRight (pyStripLeft s)

/-- Model of Python `str.replace(old, new)` for a non-empty `old`:
scan left to right, replacing non-overlapping occurrences.  (Python's
behaviour for an empty `old` inserts `new` everywhere; the service only
ever replaces non-empty fence markers, and for `old = []` this model
returns the string unchanged.) -/
def replaceAllAux : Nat → List Char → List Char → List Char → List Char
  | 0, s, _, _ => s
  | n + 1, s, pat, rep =>
    if pat ≠ [] ∧ pat.isPrefixOf s then
      rep ++ replaceAllAux n (s.drop pat.length) pat rep
    else
      match s with
      | [] => []
      | c :: rest => c :: replaceAllAux n rest pat rep

/-- Entry point of the replacement scan; the fuel `s.length` is enough
because every step consumes at least one character of `s`. -/
def replaceAll (s pat rep : List Char) : List Char := replaceAllAux s.length s pat rep

/-! ## Exact fractions

Mathlib's `ℚ` normalizes through `Nat.gcd`, which the kernel cannot
reduce, so concrete runs of the pipeline would not evaluate by `rfl` or
`decide`.  The pipeline therefore computes with `Frac`, an exact,
unnormalized fraction with a positive denominator; `Frac.toRat` maps it
to `ℚ` for specification-level reasoning. -/

/-- An exact rational with positive denominator, with gcd-free
operations so that the kernel can evaluate the pipeline. -/
structure Frac where
  num : ℤ
  den : ℤ
  den_pos : 0 < den

instance : DecidableEq Frac := fun a b =>
  if h : a.num = b.num ∧ a.den = b.den then
    isTrue (by cases a; cases b; simp_all)
  else
    isFalse (by intro e; cases e; simp at h)

/-- Embed an integer. -/
def Frac.ofInt (n : ℤ) : Frac := ⟨n, 1, one_pos⟩

/-- Value of a fraction as a Mathlib rational. -/
def Frac.toRat (f : Frac) : ℚ := (f.num : ℚ) / (f.den : ℚ)

/-- Exact addition (denominators multiply; no normalization). -/
def Frac.add (a b : Frac) : Frac :=
  ⟨a.num * b.den + b.num * a.den, a.den * b.den, mul_pos a.den_pos b.den_pos⟩

/-- Absolute value. -/
def Frac.abs (a : Frac) : Frac := ⟨|a.num|, a.den, a.den_pos⟩

/-- Boolean comparison; correct because denominators are positive. -/
def Frac.ble (a b : Frac) : Bool := decide (a.num * b.den ≤ b.num * a.den)

/-- Strict negativity of the value. -/
def Frac.isNeg (a : Frac) : Bool := decide (a.num < 0)

/-- Powers of ten through `Nat.pow`, which the kernel evaluates directly. -/
def intPow10 (n : ℕ) : ℤ := Int.ofNat (Nat.pow 10 n)

theorem intPow10_pos (n : ℕ) : 0 < intPow10 n := by
  have h : 0 < Nat.pow 10 n := Nat.pos_pow_of_pos n (by norm_num)
  simp only [intPow10]
  exact Int.ofNat_pos.mpr h

/-- Multiply by a signed power of ten (used for decimal exponents). -/
def Frac.mulPow10 (a : Frac) (e : ℤ) : Frac :=
  if 0 ≤ e then ⟨a.num * intPow10 e.toNat, a.den, a.den_pos⟩
  else ⟨a.num, a.den * intPow10 (-e).toNat,
        mul_pos a.den_pos (intPow10_pos _)⟩

theorem Frac.toRat_ofInt (n : ℤ) : (Frac.ofInt n).toRat = (n : ℚ) := by
  simp [Frac.ofInt, Frac.toRat]

theorem Frac.den_q_pos (a : Frac) : (0 : ℚ) < (a.den : ℚ) := by
  exact_mod_cast a.den_pos

theorem Frac.toRat_add (a b : Frac) : (a.add b).toRat = a.toRat + b.toRat := by
  have ha := a.den_q_pos
  have hb := b.den_q_pos
  simp only [Frac.add, Frac.toRat]
  push_cast
  field_simp

theorem Frac.toRat_abs (a : Frac) : (a.abs).toRat = |a.toRat| := by
  have ha := a.den_q_pos
  simp only [Frac.abs, Frac.toRat]
  rw [abs_div, abs_of_pos ha]
  push_cast
  rfl

theorem Frac.ble_iff (a b : Frac) : a.ble b = true ↔ a.toRat ≤ b.toRat := by
  have ha := a.den_q_pos
  have hb := b.den_q_pos
  simp only [Frac.ble, Frac.toRat, decide_eq_true_eq]
  rw [div_le_div_iff ha hb]
  constructor
  · intro h; exact_mod_cast h
  · intro h; exact_mod_cast h

theorem Frac.isNeg_iff (a : Frac) : a.isNeg = true ↔ a.toRat < 0 := by
  have ha := a.den_q_pos
  simp only [Frac.isNeg, Frac.toRat, decide_eq_true_eq]
  constructor
  · intro h; exact div_neg_of_neg_of_pos (by exact_mod_cast h) ha
  · intro h
    by_contra hn
    push_neg at hn
    have : (0 : ℚ) ≤ (a.num : ℚ) / (a.den : ℚ) :=
      div_nonneg (by exact_mod_cast hn) (le_of_lt ha)
    exact absurd h (not_lt.mpr this)

/-! ## Python values -/

/-- Python floats as far as the pipeline observes them: exact fractions
for finite values, plus infinities (with a sign bit, `true` = negative)
and NaN. -/
inductive PyFloat where
  | finite (q : Frac)
  | inf (neg : Bool)
  | nan
deriving DecidableEq

/-- True exactly for finite floats. -/
def PyFloat.isFinite : PyFloat → Bool
  | .finite _ => true
  | _ => false

/-- Rational reading of a float (0 for non-finite values). -/
def PyFloat.rat : PyFloat → ℚ
  | .finite q => q.toRat
  | _ => 0

/-- The magnitude at which conversion of a value to a Python float
overflows; used both for `float(int)` (which raises `OverflowError`)
and for parsed decimal literals (which clamp to infinity). -/
def floatOverflowBound : Frac := ⟨Int.ofNat (Nat.pow 2 1024), 1, one_pos⟩

/-- Clamp an exact fraction to the modelled float range: magnitudes of at
least 2^1024 become signed infinity, everything else stays exact. -/
def clampFloat (q : Frac) : PyFloat :=
  if floatOverflowBound.ble q.abs then .inf q.isNeg else .finite q

/-- Values produced by `json.loads`: `None`, booleans, (arbitrary
precision) integers, floats, strings, lists and dicts.  Python's JSON
decoder builds dicts from key/value pairs with later duplicates winning;
`dictGet` below implements that reading on the association list. -/
inductive PyVal where
  | none
  | bool (b : Bool)
  | int (n : ℤ)
  | float (f : PyFloat)
  | str (s : List Char)
  | list (elems : List PyVal)
  | dict (entries : List (List Char × PyVal))

/-- Exceptions raised by the conversion `float(v)`. -/
inductive PyErr where
  | typeError
  | valueError
  | overflowError
deriving DecidableEq

/-- How a service request fails: either a `fastapi.HTTPException` with a
status code and detail string, or an exception that no handler in the
service catches (FastAPI then produces a generic 500 response). -/
inductive Failure where
  | http (status : Nat) (detail : List Char)
  | uncaught (exc : List Char)
deriving DecidableEq

/-- Python truthiness (`bool(v)`) for the modelled values. -/
def truthy : PyVal → Bool
  | .none => false
  | .bool b => b
  | .int n => decide (n ≠ 0)
  | .float (.finite q) => decide (q.num ≠ 0)
  | .float _ => true
  | .str s => !s.isEmpty
  | .list l => !l.isEmpty
  | .dict l => !l.isEmpty

/-- Model of the Python expression `a or b`. -/
def pyOr (a b : PyVal) : PyVal := if truthy a then a else b

/-- Lookup in a parsed JSON object.  Python's decoder overwrites earlier
duplicate keys, so the last matching pair wins. -/
def dictGet (kvs : List (List Char × PyVal)) (k : List Char) : Option PyVal :=
  match kvs with
  | [] => Option.none
  | (k', v) :: rest =>
    match dictGet rest k with
    | some w => some w
    | Option.none => if k' = k then some v else Option.none

/-- Model of `d.get(k)`: `None` when the key is missing. -/
def pyGet (kvs : List (List Char × PyVal)) (k : List Char) : PyVal :=
  (dictGet kvs k).getD .none

/-- Model of `d.get(k, default)`. -/
def dictGetD (kvs : List (List Char × PyVal)) (k : List Char) (d : PyVal) : PyVal :=
  (dictGet kvs k).getD d

/-! ## Python float conversion -/

/-- Digits to a natural number. -/
def digitsToNat (ds : List Char) : ℕ :=
  ds.foldl (fun acc c => 10 * acc + (c.toNat - '0'.toNat)) 0

/-- Assemble a decimal literal `ip . fp e eSign ed` into an exact fraction. -/
def decimalToFrac (neg : Bool) (ip fp : List Char) (eNeg : Bool) (ed : List Char) : Frac :=
  let base : ℤ := intPow10 fp.length
  let mant : ℤ := (digitsToNat ip : ℤ) * base + (digitsToNat fp : ℤ)
  let ex : ℤ := if eNeg then -(digitsToNat ed : ℤ) else (digitsToNat ed : ℤ)
  Frac.mulPow10 ⟨if neg then -mant else mant, base, intPow10_pos _⟩ ex

/-- Strip one optional leading sign, reporting whether it was `-`. -/
def stripSign (t : List Char) : Bool × List Char :=
  match t with
  | '-' :: r => (true, r)
  | '+' :: r => (false, r)
  | _ => (false, t)

/-- Digits of the optional fractional part (after a leading dot). -/
def fracDigits : List Char → List Char
  | '.' :: r => r.takeWhile Char.isDigit
  | _ => []

/--What remains after the optional fractional part. -/
def fracRest : List Char → List Char
  | '.' :: r => r.dropWhile Char.isDigit
  | t => t

/-- Model of Python `float(s)` on a string: strip whitespace, optional
sign, then `inf`/`infinity`/`nan` (case-insensitive) or a decimal literal
`digits [. digits] [(e|E) [sign] digits]` with at least one mantissa
digit.  Values beyond the float range clamp to infinity (string
conversion never raises `OverflowError`).  Underscored literals such as
`1_0` (which CPython accepts) are not modelled. -/
def floatOfString (s : List Char) : Except PyErr PyFloat :=
  let p := stripSign (pyStrip s)
  let neg := p.1
  let t1 := p.2
  let low := t1.map Char.toLower
  if low = ('i' :: 'n' :: 'f' :: []) ∨
     low = ('i' :: 'n' :: 'f' :: 'i' :: 'n' :: 'i' :: 't' :: 'y' :: []) then
    .ok (.inf neg)
  else if low = ('n' :: 'a' :: 'n' :: []) then
    .ok .nan
  else
    let ip := t1.takeWhile Char.isDigit
    let r1 := t1.dropWhile Char.isDigit
    let fp := fracDigits r1
    let r2 := fracRest r1
    if ip = [] ∧ fp = [] then .error .valueError
    else
      match r2 with
      | [] => .ok (clampFloat (decimalToFrac neg ip fp false []))
      | c :: r3 =>
        if c = 'e' ∨ c = 'E' then
          let q := stripSign r3
          let ed := q.2.takeWhile Char.isDigit
          let r5 := q.2.dropWhile Char.isDigit
          if ed = [] ∨ r5 ≠ [] then .error .valueError
          else .ok (clampFloat (decimalToFrac neg ip fp q.1 ed))
        else .error .valueError

/-- Model of the Python builtin `float(v)`.  `float` of a bool gives 0.0
or 1.0; of an int it raises `OverflowError` when the value is beyond the
float range; of a float it is the identity; of a string it parses; of
`None`, lists and dicts it raises `TypeError`. -/
def pyFloatFn : PyVal → Except PyErr PyFloat
  | .none => .error .typeError
  | .bool b => .ok (.finite (Frac.ofInt (if b then 1 else 0)))
  | .int n => if floatOverflowBound.ble (Frac.ofInt n).abs then .error .overflowError
              else .ok (.finite (Frac.ofInt n))
  | .float f => .ok f
  | .str s => floatOfString s
  | .list _ => .error .typeError
  | .dict _ => .error .typeError

/-- Model of `_to_float` (daily_planner.py, lines 121-125): `float(val)`
with `TypeError` and `ValueError` mapped to `0.0`.  `OverflowError` is
not in the `except` clause, so it escapes. -/
def toFloat (v : PyVal) : Except PyErr PyFloat :=
  match pyFloatFn v with
  | .ok f => .ok f
  | .error .typeError => .ok (.finite (Frac.ofInt 0))
  | .error .valueError => .ok (.finite (Frac.ofInt 0))
  | .error e => .error e

/-- Model of Python float addition `a + b` as the pipeline uses it:
NaN propagates, opposite infinities give NaN, an infinity absorbs finite
values, and a finite sum clamps to infinity beyond the float range
(finite arithmetic itself is kept exact). -/
def pyAdd : PyFloat → PyFloat → PyFloat
  | .nan, _ => .nan
  | _, .nan => .nan
  | .inf s, .inf t => if s = t then .inf s else .nan
  | .inf s, .finite _ => .inf s
  | .finite _, .inf t => .inf t
  | .finite a, .finite b => clampFloat (a.add b)

/-- Model of Python `str(v)` where the pipeline may call it (only on the
`tags` value of the food classifier when it is neither `None` nor a
list).  The renderings of `None`, booleans, ints and strings are exact;
Python's `repr` of floats, lists and dicts is not reproduced (no claim
depends on it). -/
def pyStrFn : PyVal → List Char
  | .none => ('N' :: 'o' :: 'n' :: 'e' :: [])
  | .bool true => ('T' :: 'r' :: 'u' :: 'e' :: [])
  | .bool false => ('F' :: 'a' :: 'l' :: 's' :: 'e' :: [])
  | .int n => (toString n).toList
  | .float _ => ('<' :: 'f' :: 'l' :: 'o' :: 'a' :: 't' :: '>' :: [])
  | .str s => s
  | .list _ => ('<' :: 'l' :: 'i' :: 's' :: 't' :: '>' :: [])
  | .dict _ => ('<' :: 'd' :: 'i' :: 'c' :: 't' :: '>' :: [])

/-! ## Model of `json.loads`

Python's `json.loads` is a recursive-descent parser.  `parseVal` models
it on `List Char` with an explicit fuel argument bounding the recursion;
`loads` runs it with fuel `2 * length + 2`, which the metatheory below
shows is always sufficient for the text actually consumed. -/

/-- The `BACKSLASH` escape table of Python's `json.decoder`. -/
def escChar (e : Char) : Option Char :=
  if e = '"' then some '"'
  else if e = '\\' then some '\\'
  else if e = '/' then some '/'
  else if e = 'b' then some '\x08'
  else if e = 'f' then some '\x0c'
  else if e = 'n' then some '\n'
  else if e = 'r' then some '\r'
  else if e = 't' then some '\t'
  else Option.none

/-- Hexadecimal digit test for `\uXXXX` escapes. -/
def isHexC (c : Char) : Bool :=
  c.isDigit || ('a' ≤ c && c ≤ 'f') || ('A' ≤ c && c ≤ 'F')

/-- Value of a hexadecimal digit. -/
def hexVal (c : Char) : Nat :=
  if c.isDigit then c.toNat - '0'.toNat
  else if 'a' ≤ c ∧ c ≤ 'f' then c.toNat - 'a'.toNat + 10
  else c.toNat - 'A'.toNat + 10

/-- String-literal body parser: input starts just after the opening
quote; returns the decoded content and the rest after the closing quote.
Escapes `\" \\ \/ \b \f \n \r \t \uXXXX` are decoded (`\uXXXX` without
surrogate pairing); unescaped control characters are rejected as in
Python's strict mode. -/
def parseStrBody : List Char → Option (List Char × List Char)
  | [] => Option.none
  | c :: r =>
    if c = '"' then some ([], r)
    else if c = '\\' then
      match r with
      | [] => Option.none
      | e :: r2 =>
        if e = 'u' then
          match r2 with
          | h1 :: h2 :: h3 :: h4 :: r3 =>
            if isHexC h1 ∧ isHexC h2 ∧ isHexC h3 ∧ isHexC h4 then
              let code := 4096 * hexVal h1 + 256 * hexVal h2 + 16 * hexVal h3 + hexVal h4
              (parseStrBody r3).map (fun p => (Char.ofNat code :: p.1, p.2))
            else Option.none
          | _ => Option.none
        else
          match escChar e with
          | some d => (parseStrBody r2).map (fun p => (d :: p.1, p.2))
          | Option.none => Option.none
    else if c.toNat < 32 then Option.none
    else (parseStrBody r).map (fun p => (c :: p.1, p.2))

/-- Integer-part lexer for JSON numbers, following the `NUMBER_RE`
regular expression of Python's `json` module: a single `0`, or a nonzero
digit followed by any digits. -/
def lexInt (t : List Char) : Option (List Char × List Char) :=
  match t with
  | '0' :: r => some (['0'], r)
  | c :: _ =>
    if c.isDigit then some (t.takeWhile Char.isDigit, t.dropWhile Char.isDigit)
    else Option.none
  | [] => Option.none

/-- Fraction lexer: `.` followed by at least one digit, or nothing. -/
def lexFrac (t : List Char) : List Char × List Char :=
  match t with
  | '.' :: r =>
    if (r.takeWhile Char.isDigit) = [] then ([], t)
    else ('.' :: r.takeWhile Char.isDigit, r.dropWhile Char.isDigit)
  | _ => ([], t)

/-- Exponent lexer: `e`/`E`, optional sign, at least one digit, or nothing. -/
def lexExp (t : List Char) : List Char × List Char :=
  match t with
  | e :: r =>
    if e = 'e' ∨ e = 'E' then
      match r with
      | '-' :: r2 =>
        if (r2.takeWhile Char.isDigit) = [] then ([], t)
        else (e :: '-' :: r2.takeWhile Char.isDigit, r2.dropWhile Char.isDigit)
      | '+' :: r2 =>
        if (r2.takeWhile Char.isDigit) = [] then ([], t)
        else (e :: '+' :: r2.takeWhile Char.isDigit, r2.dropWhile Char.isDigit)
      | _ =>
        if (r.takeWhile Char.isDigit) = [] then ([], t)
        else (e :: r.takeWhile Char.isDigit, r.dropWhile Char.isDigit)
    else ([], t)
  | [] => ([], t)

/-- Value of a lexed number: an `int` when there is neither fraction nor
exponent (Python's decoder applies `int`), otherwise a float built from
the exact decimal value, clamping to infinity beyond the float range
(Python's `float` of a large literal yields `inf` without raising). -/
def numValue (neg : Bool) (ip fp ep : List Char) : PyVal :=
  if fp = [] ∧ ep = [] then
    .int (if neg then -(digitsToNat ip : ℤ) else (digitsToNat ip : ℤ))
  else
    let fdigits := fp.drop 1
    let (eNeg, edigits) : Bool × List Char :=
      match ep with
      | _ :: '-' :: ds => (true, ds)
      | _ :: '+' :: ds => (false, ds)
      | _ :: ds => (false, ds)
      | [] => (false, [])
    .float (clampFloat (decimalToFrac neg ip fdigits eNeg edigits))

/-- Leading minus sign of a number literal. -/
def numSign : List Char → Bool
  | '-' :: _ => true
  | _ => false

/-- The number literal after its optional minus sign. -/
def numRest : List Char → List Char
  | '-' :: r => r
  | t => t

/-- Number parser (sign, integer part, optional fraction and exponent). -/
def parseNum (t : List Char) : Option (PyVal × List Char) :=
  match lexInt (numRest t) with
  | Option.none => Option.none
  | some p =>
    let fr := lexFrac p.2
    let er := lexExp fr.2
    some (numValue (numSign t) p.1 fr.1 er.1, er.2)

/-- Atom helper: recognise a literal token at the head of the input. -/
def expectAtom (lit : List Char) (v : PyVal) (t : List Char) : Option (PyVal × List Char) :=
  if lit.isPrefixOf t then some (v, t.drop lit.length) else Option.none

mutual

/-- Model of the value parser of Python's `json` module.  The fuel
argument only bounds recursion depth; `loads` supplies enough for any
input it accepts.  The non-standard `NaN`, `Infinity` and `-Infinity`
constants are accepted, as Python does by default. -/
def parseVal : Nat → List Char → Option (PyVal × List Char)
  | 0, _ => Option.none
  | n + 1, s =>
    match s.dropWhile isJsonWs with
    | [] => Option.none
    | c :: r =>
      if c = 'n' then expectAtom (('n') :: 'u' :: 'l' :: 'l' :: []) .none (c :: r)
      else if c = 't' then expectAtom (('t') :: 'r' :: 'u' :: 'e' :: []) (.bool true) (c :: r)
      else if c = 'f' then expectAtom (('f') :: 'a' :: 'l' :: 's' :: 'e' :: []) (.bool false) (c :: r)
      else if c = 'N' then expectAtom (('N') :: 'a' :: 'N' :: []) (.float .nan) (c :: r)
      else if c = 'I' then
        expectAtom (('I') :: 'n' :: 'f' :: 'i' :: 'n' :: 'i' :: 't' :: 'y' :: []) (.float (.inf false)) (c :: r)
      else if c = '"' then
        match parseStrBody r with
        | some (cs, rest) => some (.str cs, rest)
        | Option.none => Option.none
      else if c = '[' then parseArrayBody n r
      else if c = '{' then parseObjBody n r
      else if c = '-' then
        match r with
        | 'I' :: _ =>
          expectAtom (('-') :: 'I' :: 'n' :: 'f' :: 'i' :: 'n' :: 'i' :: 't' :: 'y' :: []) (.float (.inf true)) (c :: r)
        | _ => parseNum (c :: r)
      else if c.isDigit then parseNum (c :: r)
      else Option.none

/-- Array parser, input just after `[`. -/
def parseArrayBody : Nat → List Char → Option (PyVal × List Char)
  | 0, _ => Option.none
  | n + 1, s =>
    match s.dropWhile isJsonWs with
    | ']' :: rest => some (.list [], rest)
    | _ => match parseItems n s with
           | some (vs, rest) => some (.list vs, rest)
           | Option.none => Option.none

/-- Comma-separated array items, consuming the closing `]`. -/
def parseItems : Nat → List Char → Option (List PyVal × List Char)
  | 0, _ => Option.none
  | n + 1, s =>
    match parseVal n s with
    | Option.none => Option.none
    | some (v, r) =>
      match r.dropWhile isJsonWs with
      | ',' :: r2 =>
        match parseItems n r2 with
        | some (vs, r3) => some (v :: vs, r3)
        | Option.none => Option.none
      | ']' :: r2 => some ([v], r2)
      | _ => Option.none

/-- Object parser, input just after `{`. -/
def parseObjBody : Nat → List Char → Option (PyVal × List Char)
  | 0, _ => Option.none
  | n + 1, s =>
    match s.dropWhile isJsonWs with
    | '}' :: rest => some (.dict [], rest)
    | _ => match parseMembers n s with
           | some (kvs, rest) => some (.dict kvs, rest)
           | Option.none => Option.none

/-- Comma-separated object members, consuming the closing `}`. -/
def parseMembers : Nat → List Char → Option (List (List Char × PyVal) × List Char)
  | 0, _ => Option.none
  | n + 1, s =>
    match s.dropWhile isJsonWs with
    | '"' :: r =>
      match parseStrBody r with
      | Option.none => Option.none
      | some (k, r2) =>
        match r2.dropWhile isJsonWs with
        | ':' :: r3 =>
          match parseVal n r3 with
          | Option.none => Option.none
          | some (v, r4) =>
            match r4.dropWhile isJsonWs with
            | ',' :: r5 =>
              match parseMembers n r5 with
              | some (ms, r6) => some ((k, v) :: ms, r6)
              | Option.none => Option.none
            | '}' :: r5 => some ([(k, v)], r5)
            | _ => Option.none
        | _ => Option.none
    | _ => Option.none

end

/-- JSON whitespace stripped from both ends, as `json.loads` tolerates
around the document. -/
def jsonTrim (s : List Char) : List Char :=
  ((s.dropWhile isJsonWs).reverse.dropWhile isJsonWs).reverse

/-- Model of `json.loads`.  Python's decoder skips JSON whitespace
before the value and accepts only JSON whitespace after it; since
`parseVal` skips interior whitespace itself and never consumes
whitespace after the parsed value, this is equivalent to trimming the
outer whitespace and requiring the value to span the whole remaining
text.  Any `json.JSONDecodeError` is `Option.none`. -/
def loads (s : List Char) : Option PyVal :=
  let t := jsonTrim s
  match parseVal (2 * t.length + 2) t with
  | some (v, []) => some v
  | _ => Option.none

example : loads (("1").toList) = some (.int 1) := by rfl
example : loads (("-12.5").toList) = some (.float (.finite ⟨-125, 10, by norm_num⟩)) := by rfl
example : loads ((" \x7b\"a\": [1, true, null]\x7d ").toList) =
    some (.dict [(('a' :: []), .list [.int 1, .bool true, .none])]) := by rfl
example : loads (("1e999").toList) = some (.float (.inf false)) := by rfl
example : loads (("NaN").toList) = some (.float .nan) := by rfl
example : loads (("\x7b\x7d").toList) = some (.dict []) := by rfl
example : loads (("[1,2").toList) = Option.none := by rfl
example : loads (("```json").toList) = Option.none := by rfl

/-! ## JSON repair (`_clean_json`) and the parse strategies

`_clean_json` is textually identical in `gemini_co2.py` (lines 73-81),
`food_image_classifier.py` (lines 47-55) and `daily_planner.py` (lines
86-92); `cleanJson` models all three. -/

/-- The fence marker `` ``` ``. -/
def tickPat : List Char := ('`' :: '`' :: '`' :: [])

/-- The tagged fence marker `` ```json ``. -/
def tickJsonPat : List Char := ('`' :: '`' :: '`' :: 'j' :: 's' :: 'o' :: 'n' :: [])

/-- Model of `_clean_json`: strip, and when the text starts with a code
fence, remove every occurrence of `` ```json `` and then of `` ``` ``
(`str.replace` replaces all occurrences) and strip again. -/
def cleanJson (text : List Char) : List Char :=
  let cleaned := pyStrip text
  if tickPat.isPrefixOf cleaned then
    pyStrip (replaceAll (replaceAll cleaned tickJsonPat []) tickPat [])
  else cleaned

/-- The two-attempt parse strategy of `DailyPlannerService._parse_response`
(daily_planner.py, lines 102-112): `json.loads` on the raw text, then on
the cleaned text. -/
def twoAttempt (raw : List Char) : Option PyVal :=
  match loads raw with
  | some v => some v
  | Option.none => loads (cleanJson raw)

/-- The single-attempt strategy of `estimate_with_gemini` (gemini_co2.py,
lines 114-123) and `classify_image`: `json.loads` on the cleaned text only. -/
def oneAttempt (raw : List Char) : Option PyVal := loads (cleanJson raw)

/-- `_parse_response` as a `Failure`-typed step: a 502 when both parse
attempts fail. -/
def parseResponseStep (raw : List Char) : Except Failure PyVal :=
  match twoAttempt raw with
  | some v => .ok v
  | Option.none =>
    .error (.http 502 (("Gemini returned invalid JSON").toList))

/-! ## Daily planner: schema types and field mapping -/

/-- `DailyPlannerEntry` of `models/daily_planner_schema.py`. -/
structure DailyPlannerEntry where
  original : List Char
  current_co2 : PyFloat
  alternative : List Char
  alternative_co2 : PyFloat
  reduced : PyFloat
deriving DecidableEq

/-- `TravelAnalysisEntry` of `models/daily_planner_schema.py`. -/
structure TravelAnalysisEntry where
  origin : List Char
  destination : List Char
  distance_km : PyFloat
  current_mode : List Char
  current_co2 : PyFloat
  recommended_mode : List Char
  recommended_co2 : PyFloat
  reduced : PyFloat
deriving DecidableEq

/-- `DailyPlannerResponse` of `models/daily_planner_schema.py`. -/
structure DailyPlannerResponse where
  analysis : List DailyPlannerEntry
  travel_analysis : List TravelAnalysisEntry
  summary_reduction : PyFloat
deriving DecidableEq

/-- Lift `_to_float` into the failure monad: an `OverflowError` is not
caught anywhere in the service, so it surfaces as an uncaught exception. -/
def liftToFloat (v : PyVal) : Except Failure PyFloat :=
  match toFloat v with
  | .ok f => .ok f
  | .error _ => .error (.uncaught (("OverflowError").toList))

/-- Map one entry of the `"analysis"` array (daily_planner.py, lines
127-140): build the data dict with alias fallbacks and `_to_float`
coercions, then validate with pydantic.  A non-dict entry raises
`AttributeError` at `item.get`; a truthy non-string in a string field
fails validation, which the service reports as a 502 schema mismatch. -/
def mapActivityItem (item : PyVal) : Except Failure DailyPlannerEntry :=
  match item with
  | .dict kvs => do
    let origV := pyOr (pyGet kvs (("original").toList))
                      (pyOr (pyGet kvs (("activity").toList)) (.str []))
    let cur ← liftToFloat (pyGet kvs (("current_co2").toList))
    let altV := pyOr (pyGet kvs (("alternative").toList))
                     (pyOr (pyGet kvs (("recommended").toList)) (.str []))
    let altC ← liftToFloat (pyGet kvs (("alternative_co2").toList))
    let red ← liftToFloat (pyGet kvs (("reduced").toList))
    match origV, altV with
    | .str os, .str as => .ok ⟨os, cur, as, altC, red⟩
    | _, _ => .error (.http 502 (("Gemini JSON schema mismatch").toList))
  | _ => .error (.uncaught (("AttributeError").toList))

/-- Map one entry of the `"travel_analysis"` array (daily_planner.py,
lines 142-158).  Note the defaults: `current_mode` falls back to the
literal `"car"`, `recommended_mode` to the empty string. -/
def mapTravelItem (item : PyVal) : Except Failure TravelAnalysisEntry :=
  match item with
  | .dict kvs => do
    let originV := pyOr (pyGet kvs (("origin").toList)) (.str [])
    let destV := pyOr (pyGet kvs (("destination").toList)) (.str [])
    let dist ← liftToFloat (pyGet kvs (("distance_km").toList))
    let curModeV := pyOr (pyGet kvs (("current_mode").toList))
                         (pyOr (pyGet kvs (("mode").toList)) (.str (("car").toList)))
    let curC ← liftToFloat (pyGet kvs (("current_co2").toList))
    let recModeV := pyOr (pyGet kvs (("recommended_mode").toList))
                         (pyOr (pyGet kvs (("mode").toList)) (.str []))
    let recC ← liftToFloat (pyGet kvs (("recommended_co2").toList))
    let red ← liftToFloat (pyGet kvs (("reduced").toList))
    match originV, destV, curModeV, recModeV with
    | .str a, .str b, .str cm, .str rm => .ok ⟨a, b, dist, cm, curC, rm, recC, red⟩
    | _, _, _, _ => .error (.http 502 (("Gemini JSON schema mismatch").toList))
  | _ => .error (.uncaught (("AttributeError").toList))

/-- Python iteration `for item in raw`: lists yield elements, strings
yield one-character strings, dicts yield their keys; numbers, booleans
and `None` raise `TypeError` (which nothing in the service catches). -/
def iterEntries : PyVal → Except Failure (List PyVal)
  | .list xs => .ok xs
  | .str s => .ok (s.map (fun c => PyVal.str [c]))
  | .dict kvs => .ok (kvs.map (fun p => PyVal.str p.1))
  | _ => .error (.uncaught (("TypeError").toList))

/-- Model of `DailyPlannerService._map_entries` (daily_planner.py, lines
115-160).  A non-dict top level raises `AttributeError` at `parsed.get`.
`parsed.get("analysis") or []` defaults falsy values to the empty list;
iteration of the travel list only starts after the activity loop. -/
def mapEntries (parsed : PyVal) :
    Except Failure (List DailyPlannerEntry × List TravelAnalysisEntry) :=
  match parsed with
  | .dict kvs => do
    let araw := pyOr (pyGet kvs (("analysis").toList)) (.list [])
    let traw := pyOr (pyGet kvs (("travel_analysis").toList)) (.list [])
    let aitems ← iterEntries araw
    let acts ← aitems.mapM mapActivityItem
    let titems ← iterEntries traw
    let travels ← titems.mapM mapTravelItem
    .ok (acts, travels)
  | _ => .error (.uncaught (("AttributeError").toList))

/-- The fallback sum of `_compute_summary`: `0.0` plus every entry's
`reduced`, activities first, then travel entries. -/
def sumReduced (acts : List DailyPlannerEntry) (travels : List TravelAnalysisEntry) : PyFloat :=
  ((acts.map (fun a => a.reduced)) ++ (travels.map (fun t => t.reduced))).foldl
    pyAdd (.finite (Frac.ofInt 0))

/-- Model of `DailyPlannerService._compute_summary` (daily_planner.py,
lines 162-175): use `float(parsed["summary_reduction"])` when the key is
present and not `None`, falling back to the sum on `TypeError` or
`ValueError`; an `OverflowError` escapes. -/
def computeSummary (parsed : PyVal) (acts : List DailyPlannerEntry)
    (travels : List TravelAnalysisEntry) : Except Failure PyFloat :=
  match parsed with
  | .dict kvs =>
    match pyGet kvs (("summary_reduction").toList) with
    | .none => .ok (sumReduced acts travels)
    | sv =>
      match pyFloatFn sv with
      | .ok f => .ok f
      | .error .overflowError => .error (.uncaught (("OverflowError").toList))
      | .error _ => .ok (sumReduced acts travels)
  | _ => .error (.uncaught (("AttributeError").toList))

/-- The post-parse part of `DailyPlannerService.analyze` (daily_planner.py,
lines 203-214): map entries, compute the summary, and build the response.
The final `DailyPlannerResponse(...)` construction validates fields that
are already of the right types, so it cannot fail. -/
def processParsed (parsed : PyVal) : Except Failure DailyPlannerResponse := do
  let (acts, travels) ← mapEntries parsed
  let summary ← computeSummary parsed acts travels
  .ok ⟨acts, travels, summary⟩

/-! ## calc_co2: pydantic validation of the parsed response -/

/-- `ActivityCo2Result` of `schemas.py`. -/
structure ActivityCo2Result where
  id : List Char
  co2 : PyFloat
  description : Option (List Char)
deriving DecidableEq

/-- `CalcCo2Response` of `schemas.py`. -/
structure CalcCo2Response where
  activities : List ActivityCo2Result
  totalCo2 : PyFloat
deriving DecidableEq

/-- Model of pydantic v2 lax validation of a `float` field: floats pass
through (including `inf`/`nan`), ints convert (failing on overflow, which
pydantic reports as a validation error), and numeric strings are parsed
like Python `float`.  Booleans and other shapes are rejected, matching
pydantic v2's conversion table. -/
def laxFloat : PyVal → Option PyFloat
  | .float f => some f
  | .int n =>
    match pyFloatFn (.int n) with
    | .ok f => some f
    | .error _ => Option.none
  | .str s =>
    match floatOfString s with
    | .ok f => some f
    | .error _ => Option.none
  | _ => Option.none

/-- Coerce to a Python list shape (no coercion in pydantic lax mode). -/
def asList : PyVal → Option (List PyVal)
  | .list xs => some xs
  | _ => Option.none

/-- Coerce to a string shape (pydantic does not convert numbers to str). -/
def asStr : PyVal → Option (List Char)
  | .str s => some s
  | _ => Option.none

/-- Validate an optional string field with default `None`: missing and
`null` both give `None`; a present value must be a string. -/
def asOptStrField : Option PyVal → Option (Option (List Char))
  | Option.none => some Option.none
  | some .none => some Option.none
  | some (.str s) => some (some s)
  | some _ => Option.none

/-- Validate one element of `"activities"` against `ActivityCo2Result`:
`id` must be a string, `co2` a lax float, `description` an optional
string defaulting to `None`; extra keys are ignored. -/
def validateActivityResult (v : PyVal) : Option ActivityCo2Result :=
  match v with
  | .dict kvs => do
    let idv ← dictGet kvs (("id").toList)
    let ids ← asStr idv
    let co2v ← dictGet kvs (("co2").toList)
    let co2 ← laxFloat co2v
    let desc ← asOptStrField (dictGet kvs (("description").toList))
    pure (⟨ids, co2, desc⟩ : ActivityCo2Result)
  | _ => Option.none

/-- Model of `CalcCo2Response.model_validate(parsed)`: the top level must
be a mapping with a list `"activities"` of valid results and a lax-float
`"totalCo2"`.  Any other shape is a `ValidationError`. -/
def validateCalcResponse (parsed : PyVal) : Option CalcCo2Response :=
  match parsed with
  | .dict kvs => do
    let av ← dictGet kvs (("activities").toList)
    let items ← asList av
    let acts ← items.mapM validateActivityResult
    let tv ← dictGet kvs (("totalCo2").toList)
    let tot ← laxFloat tv
    pure (⟨acts, tot⟩ : CalcCo2Response)
  | _ => Option.none

/-- The validation step of `estimate_with_gemini` (gemini_co2.py, lines
125-129): `ValidationError` becomes a 502 schema mismatch. -/
def calcValidateStep (parsed : PyVal) : Except Failure CalcCo2Response :=
  match validateCalcResponse parsed with
  | some r => .ok r
  | Option.none => .error (.http 502 (("Gemini JSON schema mismatch").toList))

/-- Sum of the `co2` fields of a calc response, as Python would compute
`sum(a.co2 for a in activities)` (rational reading, for specification). -/
def calcCo2Sum (r : CalcCo2Response) : ℚ :=
  (r.activities.map (fun a => a.co2.rat)).sum

/-- Rounding to three decimals at the rational level, used to state the
specification's `round(x, 3)` (the tie-breaking rule is immaterial to
every claim below). -/
def round3 (q : ℚ) : ℚ := ((round (q * 1000) : ℤ) : ℚ) / 1000

/-! ## Food image classifier -/

/-- `IdentifiedFood` of `models/identify_food_schema.py`. -/
structure IdentifiedFood where
  name : List Char
  tags : Option (List (List Char))
  confidence : PyFloat
  explanation : Option (List Char)
  sourceModel : Option (List Char)
deriving DecidableEq

/-- `FoodImageResponse` of `models/identify_food_schema.py`. -/
structure FoodImageResponse where
  item : IdentifiedFood
deriving DecidableEq

/-- Validate a value against `Optional[List[str]]`. -/
def validateTags : Option PyVal → Option (Option (List (List Char)))
  | Option.none => some Option.none
  | some (.list xs) =>
    match xs.mapM (fun v => match v with | PyVal.str s => some s | _ => Option.none) with
    | some strs => some (some strs)
    | Option.none => Option.none
  | some _ => Option.none

/-- Validate a value against `Optional[str]` (`None` stays `None`). -/
def validateOptStr : PyVal → Option (Option (List Char))
  | .none => some Option.none
  | .str s => some (some s)
  | _ => Option.none

/-- Model of `FoodImageClassifierService._map_to_response`
(food_image_classifier.py, lines 57-86).  A non-dict argument raises
`AttributeError` at `parsed.get`.  A falsy name is a 502; `confidence`
defaults to the int `0` and coerces with `TypeError`/`ValueError`
falling back to `0.0` (`OverflowError` escapes); a non-`None` non-list
`tags` is wrapped as `[str(tags)]`; validation failure of
`IdentifiedFood` is a 502. -/
def mapToResponse (modelName : List Char) (parsed : PyVal) : Except Failure FoodImageResponse :=
  match parsed with
  | .dict kvs =>
    let name := pyOr (pyGet kvs (("name").toList)) (pyGet kvs (("food").toList))
    if truthy name = false then
      .error (.http 502 (("Gemini Vision response missing 'name'").toList))
    else do
      let conf ←
        (match pyFloatFn (dictGetD kvs (("confidence").toList) (.int 0)) with
         | .ok f => Except.ok f
         | .error .overflowError => .error (.uncaught (("OverflowError").toList))
         | .error _ => Except.ok (.finite (Frac.ofInt 0)))
      let tagsOpt : Option PyVal :=
        match pyGet kvs (("tags").toList) with
        | .none => Option.none
        | .list xs => some (.list xs)
        | other => some (.list [.str (pyStrFn other)])
      let explV := pyOr (pyGet kvs (("explanation").toList)) (pyGet kvs (("reasoning").toList))
      match name, validateTags tagsOpt, validateOptStr explV with
      | .str ns, some tl, some eo =>
        .ok ⟨⟨ns, tl, conf, eo, some modelName⟩⟩
      | _, _, _ =>
        .error (.http 502 (("Invalid Gemini Vision response format").toList))
  | _ => .error (.uncaught (("AttributeError").toList))

/-! ## Settings, configuration check and the three operations -/

/-- The process-wide settings of `settings.py` that the services read. -/
structure Settings where
  gemini_api_key : Option (List Char)
  gemini_model : List Char
  gemini_vision_model : List Char

/-- Python falsiness of the configured key: absent or empty. -/
def keyFalsy (st : Settings) : Bool :=
  match st.gemini_api_key with
  | Option.none => true
  | some k => k.isEmpty

/-- Model of `_get_model` (gemini_co2.py lines 50-62, and the identical
checks in the two services): a falsy `GEMINI_API_KEY` is a 500
configuration error, raised before any client construction; the
`genai.configure`/`GenerativeModel` try-block is abstracted by the
`init` parameter (a thrown exception there becomes a 500). -/
def getModel (st : Settings) (init : Except Failure Unit) : Except Failure Unit :=
  if keyFalsy st then
    .error (.http 500 (("GEMINI_API_KEY is not configured").toList))
  else init

/-- `estimate_with_gemini` (gemini_co2.py, lines 84-129), with the model
call (dispatch, await, `_extract_text`) abstracted as `call`; the prompt
building has no observable effect on the result and is omitted. -/
def calcOp (st : Settings) (init : Except Failure Unit)
    (call : Unit → Except Failure (List Char)) : Except Failure CalcCo2Response := do
  let _ ← getModel st init
  let raw ← call ()
  match oneAttempt raw with
  | some parsed => calcValidateStep parsed
  | Option.none => .error (.http 502 (("Gemini returned invalid JSON").toList))

/-- `DailyPlannerService.analyze` (daily_planner.py, lines 177-214), with
the model call abstracted as `call`. -/
def plannerOp (st : Settings) (init : Except Failure Unit)
    (call : Unit → Except Failure (List Char)) : Except Failure DailyPlannerResponse := do
  let _ ← getModel st init
  let raw ← call ()
  let parsed ← parseResponseStep raw
  processParsed parsed

/-- Model of `_fetch_image` (food_image_classifier.py, lines 88-111): an
empty URL is rejected as a 400 before any network access; the download,
status check, content-type check and empty-body check are abstracted by
`net` (each failure there is a 400 client error in the code). -/
def fetchImage (url : List Char) (net : Except Failure Unit) : Except Failure Unit :=
  if url.isEmpty then .error (.http 400 (("imageUrl is required").toList))
  else net

/-- `FoodImageClassifierService.classify_image` (food_image_classifier.py,
lines 113-149).  Note the order: the image is fetched before
`_get_model` checks the API key. -/
def classifyOp (st : Settings) (url : List Char) (net : Except Failure Unit)
    (init : Except Failure Unit) (call : Unit → Except Failure (List Char)) :
    Except Failure FoodImageResponse := do
  let _ ← fetchImage url net
  let _ ← getModel st init
  let raw ← call ()
  match oneAttempt raw with
  | some parsed => mapToResponse st.gemini_vision_model parsed
  | Option.none => .error (.http 502 (("Gemini Vision returned invalid JSON").toList))

/-! ## Helper predicates for the claims -/

/-- The detail string of the planner/food schema-mismatch failures. -/
def schemaMismatchDetail : List Char := ("Gemini JSON schema mismatch").toList

/-- `_to_float` of the value lands on a finite float (either a genuine
finite conversion or the `0.0` default). -/
def coercesFinite (v : PyVal) : Bool :=
  match toFloat v with
  | .ok (.finite _) => true
  | _ => false

/-- `_to_float` of the value does not raise (no `OverflowError`). -/
def noOverflow (v : PyVal) : Bool :=
  match toFloat v with
  | .ok _ => true
  | _ => false

/-- All numeric fields of a mapped activity entry are finite. -/
def actEntryFinite (e : DailyPlannerEntry) : Bool :=
  e.current_co2.isFinite && e.alternative_co2.isFinite && e.reduced.isFinite

/-- All numeric fields of a mapped travel entry are finite. -/
def travEntryFinite (e : TravelAnalysisEntry) : Bool :=
  e.distance_km.isFinite && e.current_co2.isFinite &&
  e.recommended_co2.isFinite && e.reduced.isFinite

/-- All numeric fields of a planner response are finite. -/
def respNumsFinite (r : DailyPlannerResponse) : Bool :=
  r.analysis.all actEntryFinite && r.travel_analysis.all travEntryFinite &&
  r.summary_reduction.isFinite

/-- The numeric source fields of one raw activity entry all coerce to
finite floats (trivially true for non-dicts, which never map). -/
def actNumsOk (item : PyVal) : Bool :=
  match item with
  | .dict kvs =>
    coercesFinite (pyGet kvs (("current_co2").toList)) &&
    coercesFinite (pyGet kvs (("alternative_co2").toList)) &&
    coercesFinite (pyGet kvs (("reduced").toList))
  | _ => true

/-- The numeric source fields of one raw travel entry all coerce to
finite floats. -/
def travNumsOk (item : PyVal) : Bool :=
  match item with
  | .dict kvs =>
    coercesFinite (pyGet kvs (("distance_km").toList)) &&
    coercesFinite (pyGet kvs (("current_co2").toList)) &&
    coercesFinite (pyGet kvs (("recommended_co2").toList)) &&
    coercesFinite (pyGet kvs (("reduced").toList))
  | _ => true

/-! ## Claims -/

/-- Inversion of a successful `Except` bind. -/
theorem exBindOk {α β : Type} {x : Except Failure α} {f : α → Except Failure β} {b : β}
    (h : (x >>= f) = Except.ok b) : ∃ a, x = Except.ok a ∧ f a = Except.ok b := by
  cases x with
  | error e => simp [Bind.bind, Except.bind] at h
  | ok a => exact ⟨a, rfl, by simpa [Bind.bind, Except.bind] using h⟩

/-- C10: if the daily-planner model response parses to a JSON object
containing none of the keys `"analysis"`, `"travel_analysis"` or
`"summary_reduction"` (so each `parsed.get` yields `None`), the
post-parse pipeline succeeds with an empty analysis list, an empty
travel list and `summary_reduction = 0.0`, rather than failing with a
schema mismatch. -/
theorem C10_planner_empty_object (kvs : List (List Char × PyVal))
    (h1 : pyGet kvs (("analysis").toList) = PyVal.none)
    (h2 : pyGet kvs (("travel_analysis").toList) = PyVal.none)
    (h3 : pyGet kvs (("summary_reduction").toList) = PyVal.none) :
    processParsed (PyVal.dict kvs) =
      Except.ok ⟨[], [], .finite (Frac.ofInt 0)⟩ := by
  simp only [processParsed, mapEntries, computeSummary, h1, h2, h3, pyOr, truthy,
             iterEntries, sumReduced, Bool.false_eq_true, if_false, List.mapM_nil,
             List.map_nil, List.nil_append, List.foldl_nil]
  rfl

/-- C10 witness: the empty object. -/
theorem C10_planner_empty_object_witness :
    pyGet [] (("analysis").toList) = PyVal.none ∧
    processParsed (PyVal.dict []) = Except.ok ⟨[], [], .finite (Frac.ofInt 0)⟩ :=
  ⟨rfl, C10_planner_empty_object [] rfl rfl rfl⟩

/-- C8 counterexample: for the empty travel entry `{}` every lookup is
falsy, yet the mapped `current_mode` is the literal `"car"`, not the
empty string that the claim's type-appropriate zero-value prescribes. -/
theorem C8_counterexample :
    mapTravelItem (PyVal.dict []) =
      Except.ok ⟨[], [], .finite (Frac.ofInt 0), ("car").toList, .finite (Frac.ofInt 0),
                 [], .finite (Frac.ofInt 0), .finite (Frac.ofInt 0)⟩ ∧
    ("car").toList ≠ ([] : List Char) := by
  constructor
  · rfl
  · decide

/-- C8 amended: travel-entry string fields resolve the primary key, then
the `"mode"` alias (for the two mode fields), then a default — but the
default for `current_mode` is the literal `"car"`; `recommended_mode`,
`origin` and `destination` default to the empty string, and numeric
fields to `0.0`. -/
theorem C8_travel_mapping_amended (kvs : List (List Char × PyVal))
    (e : TravelAnalysisEntry)
    (hmap : mapTravelItem (PyVal.dict kvs) = Except.ok e) :
    (truthy (pyGet kvs (("current_mode").toList)) = false →
     truthy (pyGet kvs (("mode").toList)) = false →
     e.current_mode = ("car").toList) ∧
    (truthy (pyGet kvs (("recommended_mode").toList)) = false →
     truthy (pyGet kvs (("mode").toList)) = false →
     e.recommended_mode = []) ∧
    (∀ m, truthy (pyGet kvs (("current_mode").toList)) = false →
     pyGet kvs (("mode").toList) = PyVal.str m →
     truthy (PyVal.str m) = true →
     e.current_mode = m) ∧
    (∀ m, truthy (pyGet kvs (("recommended_mode").toList)) = false →
     pyGet kvs (("mode").toList) = PyVal.str m →
     truthy (PyVal.str m) = true →
     e.recommended_mode = m) ∧
    (truthy (pyGet kvs (("origin").toList)) = false → e.origin = []) ∧
    (truthy (pyGet kvs (("destination").toList)) = false → e.destination = []) ∧
    (pyGet kvs (("distance_km").toList) = PyVal.none →
     e.distance_km = .finite (Frac.ofInt 0)) := by
  unfold mapTravelItem at hmap
  obtain ⟨dist, hd, hmap⟩ := exBindOk hmap
  obtain ⟨curC, hc, hmap⟩ := exBindOk hmap
  obtain ⟨recC, hr, hmap⟩ := exBindOk hmap
  obtain ⟨red, hv, hmap⟩ := exBindOk hmap
  split at hmap
  case _ a b cm rm ho hde hcm hrm =>
    obtain rfl : e = ⟨a, b, dist, cm, curC, rm, recC, red⟩ := by
      cases hmap; rfl
    refine ⟨?_, ?_, ?_, ?_, ?_, ?_, ?_⟩
    · intro hx hy
      simp only [pyOr, hx, hy, Bool.false_eq_true, if_false] at hcm
      cases hcm
      rfl
    · intro hx hy
      simp only [pyOr, hx, hy, Bool.false_eq_true, if_false] at hrm
      cases hrm
      rfl
    · intro m hx hy ht
      simp only [pyOr, hx, hy, ht, Bool.false_eq_true, if_false, if_true] at hcm
      cases hcm
      rfl
    · intro m hx hy ht
      simp only [pyOr, hx, hy, ht, Bool.false_eq_true, if_false, if_true] at hrm
      cases hrm
      rfl
    · intro hx
      simp only [pyOr, hx, Bool.false_eq_true, if_false] at ho
      cases ho
      rfl
    · intro hx
      simp only [pyOr, hx, Bool.false_eq_true, if_false] at hde
      cases hde
      rfl
    · intro hx
      rw [hx] at hd
      simp only [liftToFloat, toFloat, pyFloatFn] at hd
      cases hd
      rfl
  case _ =>
    simp at hmap

/-- C8 witness: an entry carrying only the `"mode"` alias resolves
`current_mode` (and `recommended_mode`) from it. -/
theorem C8_travel_mapping_amended_witness :
    (mapTravelItem (PyVal.dict [((("mode").toList), PyVal.str (("bus").toList))]) =
      Except.ok ⟨[], [], .finite (Frac.ofInt 0), ("bus").toList, .finite (Frac.ofInt 0),
                 ("bus").toList, .finite (Frac.ofInt 0), .finite (Frac.ofInt 0)⟩) ∧
    (⟨[], [], .finite (Frac.ofInt 0), ("bus").toList, .finite (Frac.ofInt 0),
      ("bus").toList, .finite (Frac.ofInt 0), .finite (Frac.ofInt 0)⟩ :
        TravelAnalysisEntry).current_mode = ("bus").toList :=
  ⟨rfl,
   (C8_travel_mapping_amended [((("mode").toList), PyVal.str (("bus").toList))]
      ⟨[], [], .finite (Frac.ofInt 0), ("bus").toList, .finite (Frac.ofInt 0),
       ("bus").toList, .finite (Frac.ofInt 0), .finite (Frac.ofInt 0)⟩ rfl).2.2.1
      (("bus").toList) rfl rfl rfl⟩

/-- `float(str)` never raises `OverflowError`: every failure of
`floatOfString` is a `ValueError`. -/
theorem floatOfString_error_valueError (s : List Char) (e : PyErr)
    (h : floatOfString s = Except.error e) : e = PyErr.valueError := by
  unfold floatOfString at h
  dsimp only [] at h
  split at h
  · simp at h
  · split at h
    · simp at h
    · split at h
      · cases h
        rfl
      · split at h
        · simp at h
        · split at h
          · split at h
            · cases h
              rfl
            · simp at h
          · cases h
            rfl

/-- C3 counterexample: the permissive conversion is fed a parsed JSON
integer too large for a float, and `float(10 ** 400)` raises
`OverflowError`, which the `except (TypeError, ValueError)` clause does
not catch — contradicting the claim that the conversion never raises. -/
theorem C3_counterexample :
    toFloat (PyVal.int (Int.ofNat (Nat.pow 10 400))) =
      Except.error PyErr.overflowError := rfl

/-- C3 amended: for every input that is not an integer beyond the float
range, `_to_float` never raises: it returns `float(v)` when that
conversion succeeds and `0.0` when it fails (with `TypeError` or
`ValueError`).  Integers of magnitude at least 2^1024 instead escape
with `OverflowError`. -/
theorem C3_to_float_amended (v : PyVal)
    (h : ∀ n, v = PyVal.int n → floatOverflowBound.ble (Frac.ofInt n).abs = false) :
    ∃ f, toFloat v = Except.ok f ∧
      (pyFloatFn v = Except.ok f ∨
       ((pyFloatFn v = Except.error PyErr.typeError ∨
         pyFloatFn v = Except.error PyErr.valueError) ∧
        f = PyFloat.finite (Frac.ofInt 0))) := by
  cases v with
  | none => exact ⟨.finite (Frac.ofInt 0), rfl, Or.inr ⟨Or.inl rfl, rfl⟩⟩
  | bool b => exact ⟨.finite (Frac.ofInt (if b then 1 else 0)), by cases b <;> rfl,
                     Or.inl (by cases b <;> rfl)⟩
  | int n =>
    have hb := h n rfl
    refine ⟨.finite (Frac.ofInt n), ?_, Or.inl ?_⟩ <;>
      simp [toFloat, pyFloatFn, hb]
  | float f => exact ⟨f, rfl, Or.inl rfl⟩
  | str s =>
    cases hs : floatOfString s with
    | ok f =>
      refine ⟨f, ?_, Or.inl ?_⟩ <;> simp [toFloat, pyFloatFn, hs]
    | error e =>
      have he := floatOfString_error_valueError s e hs
      subst he
      refine ⟨.finite (Frac.ofInt 0), ?_, Or.inr ⟨Or.inr ?_, rfl⟩⟩ <;>
        simp [toFloat, pyFloatFn, hs]
  | list xs => exact ⟨.finite (Frac.ofInt 0), rfl, Or.inr ⟨Or.inl rfl, rfl⟩⟩
  | dict kvs => exact ⟨.finite (Frac.ofInt 0), rfl, Or.inr ⟨Or.inl rfl, rfl⟩⟩

/-- C3 witness: a non-numeric placeholder string defaults to `0.0`
without raising. -/
theorem C3_to_float_amended_witness :
    (∀ n, PyVal.str (("n/a").toList) = PyVal.int n →
      floatOverflowBound.ble (Frac.ofInt n).abs = false) ∧
    (∃ f, toFloat (PyVal.str (("n/a").toList)) = Except.ok f ∧
      (pyFloatFn (PyVal.str (("n/a").toList)) = Except.ok f ∨
       ((pyFloatFn (PyVal.str (("n/a").toList)) = Except.error PyErr.typeError ∨
         pyFloatFn (PyVal.str (("n/a").toList)) = Except.error PyErr.valueError) ∧
        f = PyFloat.finite (Frac.ofInt 0)))) := by
  constructor
  · intro n hn
    cases hn
  · exact C3_to_float_amended (PyVal.str (("n/a").toList)) (fun n hn => by cases hn)

/-- C4 counterexample: a parsed `summary_reduction` of `10 ** 500` is
not float-coercible (`float` raises `OverflowError`), so by the claim
the result should be the fallback sum `0.0`; instead the exception
escapes the `except (TypeError, ValueError)` clause. -/
theorem C4_counterexample :
    computeSummary
        (PyVal.dict [((("summary_reduction").toList),
                      PyVal.int (Int.ofNat (Nat.pow 10 500)))]) [] [] =
      Except.error (Failure.uncaught (("OverflowError").toList)) ∧
    Except.error (Failure.uncaught (("OverflowError").toList)) ≠
      (Except.ok (sumReduced [] []) : Except Failure PyFloat) := by
  constructor
  · rfl
  · simp

/-- C4 amended: when the parsed mapping carries a non-`None`
`summary_reduction` that `float` converts, the summary is that float
verbatim; when the key is absent/`None` or conversion fails with
`TypeError`/`ValueError`, the summary is the sum of the `reduced`
fields over activity entries then travel entries.  (A large-integer
value instead raises, per the counterexample.) -/
theorem C4_summary_amended (kvs : List (List Char × PyVal))
    (acts : List DailyPlannerEntry) (travels : List TravelAnalysisEntry) :
    (∀ f, pyGet kvs (("summary_reduction").toList) ≠ PyVal.none →
      pyFloatFn (pyGet kvs (("summary_reduction").toList)) = Except.ok f →
      computeSummary (PyVal.dict kvs) acts travels = Except.ok f) ∧
    ((pyGet kvs (("summary_reduction").toList) = PyVal.none ∨
      pyFloatFn (pyGet kvs (("summary_reduction").toList)) = Except.error PyErr.typeError ∨
      pyFloatFn (pyGet kvs (("summary_reduction").toList)) = Except.error PyErr.valueError) →
      computeSummary (PyVal.dict kvs) acts travels =
        Except.ok (sumReduced acts travels)) := by
  constructor
  · intro f hne hok
    unfold computeSummary
    dsimp only []
    cases hv : pyGet kvs (("summary_reduction").toList)
    case none => exact absurd hv hne
    all_goals
      rw [hv] at hok
      simp [hok]
  · intro hcase
    unfold computeSummary
    dsimp only []
    rcases hcase with hnone | herr | herr
    · rw [hnone]
    all_goals
      cases hv : pyGet kvs (("summary_reduction").toList)
      case none => rfl
      all_goals
        rw [hv] at herr
        simp [herr]

/-- C4 witness: the specification example — `summary_reduction` omitted,
activity entries with `reduced` 1.0 and 2.0 and a travel entry with
`reduced` 0.5 — yields 3.5. -/
theorem C4_summary_amended_witness :
    computeSummary (PyVal.dict [])
      [⟨[], .finite (Frac.ofInt 0), [], .finite (Frac.ofInt 0), .finite (Frac.ofInt 1)⟩,
       ⟨[], .finite (Frac.ofInt 0), [], .finite (Frac.ofInt 0), .finite (Frac.ofInt 2)⟩]
      [⟨[], [], .finite (Frac.ofInt 0), ("car").toList, .finite (Frac.ofInt 0),
        [], .finite (Frac.ofInt 0), .finite ⟨1, 2, one_pos.trans one_lt_two⟩⟩] =
      Except.ok (sumReduced
        [⟨[], .finite (Frac.ofInt 0), [], .finite (Frac.ofInt 0), .finite (Frac.ofInt 1)⟩,
         ⟨[], .finite (Frac.ofInt 0), [], .finite (Frac.ofInt 0), .finite (Frac.ofInt 2)⟩]
        [⟨[], [], .finite (Frac.ofInt 0), ("car").toList, .finite (Frac.ofInt 0),
          [], .finite (Frac.ofInt 0), .finite ⟨1, 2, one_pos.trans one_lt_two⟩⟩]) ∧
    (sumReduced
        [⟨[], .finite (Frac.ofInt 0), [], .finite (Frac.ofInt 0), .finite (Frac.ofInt 1)⟩,
         ⟨[], .finite (Frac.ofInt 0), [], .finite (Frac.ofInt 0), .finite (Frac.ofInt 2)⟩]
        [⟨[], [], .finite (Frac.ofInt 0), ("car").toList, .finite (Frac.ofInt 0),
          [], .finite (Frac.ofInt 0), .finite ⟨1, 2, one_pos.trans one_lt_two⟩⟩]).rat
      = 7 / 2 := by
  constructor
  · exact (C4_summary_amended [] _ _).2 (Or.inl rfl)
  · show (PyFloat.finite ⟨7, 2, _⟩).rat = 7 / 2
    simp [PyFloat.rat, Frac.toRat]

/-- Inversion of a successful `Option` bind. -/
theorem optBindOk {α β : Type} {x : Option α} {f : α → Option β} {b : β}
    (h : (x >>= f) = some b) : ∃ a, x = some a ∧ f a = some b := by
  cases x with
  | none => simp at h
  | some a => exact ⟨a, rfl, by simpa using h⟩

/-- C6 counterexample: the model reports `totalCo2 = 99` alongside a
single activity with `co2 = 1`; validation succeeds and the response
carries 99 verbatim, not the rounded sum 1. -/
theorem C6_counterexample :
    calcValidateStep (PyVal.dict
        [((("activities").toList), PyVal.list [PyVal.dict
            [((("id").toList), PyVal.str (("a").toList)),
             ((("co2").toList), PyVal.float (.finite (Frac.ofInt 1)))]]),
         ((("totalCo2").toList), PyVal.float (.finite (Frac.ofInt 99)))]) =
      Except.ok ⟨[⟨("a").toList, .finite (Frac.ofInt 1), Option.none⟩],
                 .finite (Frac.ofInt 99)⟩ ∧
    PyFloat.rat (.finite (Frac.ofInt 99)) ≠
      round3 (calcCo2Sum ⟨[⟨("a").toList, .finite (Frac.ofInt 1), Option.none⟩],
                          .finite (Frac.ofInt 99)⟩) := by
  constructor
  · rfl
  · have hsum : calcCo2Sum ⟨[⟨("a").toList, .finite (Frac.ofInt 1), Option.none⟩],
                            .finite (Frac.ofInt 99)⟩ = 1 := by
      simp [calcCo2Sum, PyFloat.rat, Frac.toRat, Frac.ofInt]
    rw [hsum, round3, round_eq]
    norm_num [PyFloat.rat, Frac.toRat, Frac.ofInt]

/-- C6 amended: for every parsed value that validates, `totalCo2` is the
lax-float coercion of the model-supplied `"totalCo2"` entry — it is not
recomputed from the activities and may differ from their rounded sum. -/
theorem C6_total_amended (parsed : PyVal) (r : CalcCo2Response)
    (h : calcValidateStep parsed = Except.ok r) :
    ∃ kvs v, parsed = PyVal.dict kvs ∧
      dictGet kvs (("totalCo2").toList) = some v ∧
      laxFloat v = some r.totalCo2 := by
  unfold calcValidateStep at h
  cases hv : validateCalcResponse parsed with
  | none => rw [hv] at h; simp at h
  | some r2 =>
    rw [hv] at h
    have hr : r2 = r := by simpa using h
    subst hr
    unfold validateCalcResponse at hv
    cases parsed with
    | dict kvs =>
      obtain ⟨av, hav, hv⟩ := optBindOk hv
      obtain ⟨items, hitems, hv⟩ := optBindOk hv
      obtain ⟨acts, hacts, hv⟩ := optBindOk hv
      obtain ⟨tv, htv, hv⟩ := optBindOk hv
      obtain ⟨tot, htot, hv⟩ := optBindOk hv
      refine ⟨kvs, tv, rfl, htv, ?_⟩
      have : r2 = ⟨acts, tot⟩ := by simpa using hv.symm
      rw [this, htot]
    | none => simp at hv
    | bool b => simp at hv
    | int n => simp at hv
    | float f => simp at hv
    | str s => simp at hv
    | list xs => simp at hv

/-- C6 witness. -/
theorem C6_total_amended_witness :
    calcValidateStep (PyVal.dict
        [((("activities").toList), PyVal.list []),
         ((("totalCo2").toList), PyVal.int 42)]) =
      Except.ok ⟨[], .finite (Frac.ofInt 42)⟩ ∧
    (∃ kvs v, (PyVal.dict
        [((("activities").toList), PyVal.list []),
         ((("totalCo2").toList), PyVal.int 42)]) = PyVal.dict kvs ∧
      dictGet kvs (("totalCo2").toList) = some v ∧
      laxFloat v = some (PyFloat.finite (Frac.ofInt 42))) := by
  constructor
  · rfl
  · exact C6_total_amended _ ⟨[], .finite (Frac.ofInt 42)⟩ rfl

/-- C9 counterexample: with the API key absent, a request to
`identify_food_image` with an empty `imageUrl` fails with the 400
client error of `_fetch_image` — not the 500 misconfiguration error the
claim requires — because the image is fetched before the key check. -/
theorem C9_counterexample :
    classifyOp ⟨Option.none, [], []⟩ [] (Except.ok ()) (Except.ok ())
      (fun _ => Except.ok []) =
      Except.error (.http 400 (("imageUrl is required").toList)) ∧
    (400 : Nat) ≠ 500 := by
  constructor
  · rfl
  · decide

/-- C9 amended: with the API key absent or empty, `calc_co2` and
`daily_planner` always fail with the 500 configuration error without
the model call mattering (the result is independent of `init` and
`call`); `identify_food_image` does so provided the image fetch
succeeds, since the fetch runs before the key check. -/
theorem C9_key_check_amended (st : Settings) (h : keyFalsy st = true) :
    (∀ init call, calcOp st init call =
       Except.error (.http 500 (("GEMINI_API_KEY is not configured").toList))) ∧
    (∀ init call, plannerOp st init call =
       Except.error (.http 500 (("GEMINI_API_KEY is not configured").toList))) ∧
    (∀ url net init call, fetchImage url net = Except.ok () →
       classifyOp st url net init call =
         Except.error (.http 500 (("GEMINI_API_KEY is not configured").toList))) := by
  refine ⟨?_, ?_, ?_⟩
  · intro init call
    simp [calcOp, getModel, h, Bind.bind, Except.bind]
  · intro init call
    simp [plannerOp, getModel, h, Bind.bind, Except.bind]
  · intro url net init call hf
    simp [classifyOp, hf, getModel, h, Bind.bind, Except.bind]

/-- C9 witness: an empty-string key. -/
theorem C9_key_check_amended_witness :
    keyFalsy ⟨some [], ("m").toList, ("v").toList⟩ = true ∧
    calcOp ⟨some [], ("m").toList, ("v").toList⟩ (Except.ok ()) (fun _ => Except.ok []) =
      Except.error (.http 500 (("GEMINI_API_KEY is not configured").toList)) :=
  ⟨rfl, (C9_key_check_amended ⟨some [], ("m").toList, ("v").toList⟩ rfl).1
          (Except.ok ()) (fun _ => Except.ok [])⟩

/-- A fraction strictly below the overflow bound in magnitude is kept
finite by `clampFloat`. -/
theorem clampFloat_finite (q : Frac) (h : |q.toRat| < floatOverflowBound.toRat) :
    clampFloat q = .finite q := by
  unfold clampFloat
  rw [if_neg]
  intro hble
  rw [Frac.ble_iff, Frac.toRat_abs] at hble
  exact absurd h (not_lt.mpr hble)

/-- A finitely-coercing value gives `liftToFloat` a finite float. -/
theorem liftToFloat_finite (v : PyVal) (h : coercesFinite v = true) :
    ∃ q, liftToFloat v = Except.ok (PyFloat.finite q) := by
  unfold coercesFinite at h
  unfold liftToFloat
  cases htf : toFloat v with
  | error e => rw [htf] at h; simp at h
  | ok f =>
    rw [htf] at h
    cases f with
    | finite q => exact ⟨q, rfl⟩
    | inf b => simp at h
    | nan => simp at h

/-- A mapped activity entry built from finitely-coercing fields has only
finite numeric fields. -/
theorem mapActivityItem_finite (item : PyVal) (e : DailyPlannerEntry)
    (hok : actNumsOk item = true) (hm : mapActivityItem item = Except.ok e) :
    actEntryFinite e = true := by
  cases item with
  | dict kvs =>
    unfold actNumsOk at hok
    simp only [Bool.and_eq_true] at hok
    obtain ⟨⟨h1, h2⟩, h3⟩ := hok
    unfold mapActivityItem at hm
    obtain ⟨cur, hc, hm⟩ := exBindOk hm
    obtain ⟨altC, ha, hm⟩ := exBindOk hm
    obtain ⟨red, hr, hm⟩ := exBindOk hm
    obtain ⟨q1, hq1⟩ := liftToFloat_finite _ h1
    obtain ⟨q2, hq2⟩ := liftToFloat_finite _ h2
    obtain ⟨q3, hq3⟩ := liftToFloat_finite _ h3
    rw [hq1] at hc
    rw [hq2] at ha
    rw [hq3] at hr
    cases hc
    cases ha
    cases hr
    split at hm
    · rename_i os as ho hal
      obtain rfl : e = ⟨os, .finite q1, as, .finite q2, .finite q3⟩ := by cases hm; rfl
      rfl
    · simp at hm
  | none => simp [mapActivityItem] at hm
  | bool b => simp [mapActivityItem] at hm
  | int n => simp [mapActivityItem] at hm
  | float f => simp [mapActivityItem] at hm
  | str s => simp [mapActivityItem] at hm
  | list l => simp [mapActivityItem] at hm

/-- A mapped travel entry built from finitely-coercing fields has only
finite numeric fields. -/
theorem mapTravelItem_finite (item : PyVal) (e : TravelAnalysisEntry)
    (hok : travNumsOk item = true) (hm : mapTravelItem item = Except.ok e) :
    travEntryFinite e = true := by
  cases item with
  | dict kvs =>
    unfold travNumsOk at hok
    simp only [Bool.and_eq_true] at hok
    obtain ⟨⟨⟨h1, h2⟩, h3⟩, h4⟩ := hok
    unfold mapTravelItem at hm
    obtain ⟨dist, hd, hm⟩ := exBindOk hm
    obtain ⟨curC, hc, hm⟩ := exBindOk hm
    obtain ⟨recC, hr, hm⟩ := exBindOk hm
    obtain ⟨red, hv, hm⟩ := exBindOk hm
    obtain ⟨q1, hq1⟩ := liftToFloat_finite _ h1
    obtain ⟨q2, hq2⟩ := liftToFloat_finite _ h2
    obtain ⟨q3, hq3⟩ := liftToFloat_finite _ h3
    obtain ⟨q4, hq4⟩ := liftToFloat_finite _ h4
    rw [hq1] at hd
    rw [hq2] at hc
    rw [hq3] at hr
    rw [hq4] at hv
    cases hd
    cases hc
    cases hr
    cases hv
    split at hm
    · rename_i a b cm rm ho hde hcm hrm
      obtain rfl : e = ⟨a, b, .finite q1, cm, .finite q2, rm, .finite q3, .finite q4⟩ := by
        cases hm; rfl
      rfl
    · simp at hm
  | none => simp [mapTravelItem] at hm
  | bool b => simp [mapTravelItem] at hm
  | int n => simp [mapTravelItem] at hm
  | float f => simp [mapTravelItem] at hm
  | str s => simp [mapTravelItem] at hm
  | list l => simp [mapTravelItem] at hm

/-- Mapping a list of finitely-coercing activity entries yields only
finite numeric fields. -/
theorem mapM_activity_finite :
    ∀ (items : List PyVal) (acts : List DailyPlannerEntry),
      items.all actNumsOk = true →
      items.mapM mapActivityItem = Except.ok acts →
      acts.all actEntryFinite = true := by
  intro items
  induction items with
  | nil =>
    intro acts _ hm
    rw [List.mapM_nil] at hm
    have hmm : Except.ok ([] : List DailyPlannerEntry) = Except.ok acts := hm
    injection hmm with h2
    subst h2
    rfl
  | cons x xs ih =>
    intro acts hall hm
    simp only [List.all_cons, Bool.and_eq_true] at hall
    rw [List.mapM_cons] at hm
    obtain ⟨e, he, hm⟩ := exBindOk hm
    obtain ⟨es, hes, hm⟩ := exBindOk hm
    have hfin := mapActivityItem_finite x e hall.1 he
    have hrest := ih es hall.2 hes
    have hmm : Except.ok (e :: es) = Except.ok acts := hm
    injection hmm with h2
    subst h2
    simp [List.all_cons, hfin, hrest]

/-- Mapping a list of finitely-coercing travel entries yields only
finite numeric fields. -/
theorem mapM_travel_finite :
    ∀ (items : List PyVal) (travels : List TravelAnalysisEntry),
      items.all travNumsOk = true →
      items.mapM mapTravelItem = Except.ok travels →
      travels.all travEntryFinite = true := by
  intro items
  induction items with
  | nil =>
    intro travels _ hm
    rw [List.mapM_nil] at hm
    have hmm : Except.ok ([] : List TravelAnalysisEntry) = Except.ok travels := hm
    injection hmm with h2
    subst h2
    rfl
  | cons x xs ih =>
    intro travels hall hm
    simp only [List.all_cons, Bool.and_eq_true] at hall
    rw [List.mapM_cons] at hm
    obtain ⟨e, he, hm⟩ := exBindOk hm
    obtain ⟨es, hes, hm⟩ := exBindOk hm
    have hfin := mapTravelItem_finite x e hall.1 he
    have hrest := ih es hall.2 hes
    have hmm : Except.ok (e :: es) = Except.ok travels := hm
    injection hmm with h2
    subst h2
    simp [List.all_cons, hfin, hrest]

/-- Folding `pyAdd` over finite floats whose absolute values sum below
the float range stays finite, with the absolute value of the result
bounded by the running sum. -/
theorem foldl_pyAdd_finite :
    ∀ (l : List PyFloat) (acc : Frac),
      (∀ f ∈ l, f.isFinite = true) →
      |acc.toRat| + (l.map (fun f => |f.rat|)).sum < floatOverflowBound.toRat →
      ∃ q : Frac, l.foldl pyAdd (.finite acc) = .finite q ∧
        |q.toRat| ≤ |acc.toRat| + (l.map (fun f => |f.rat|)).sum := by
  intro l
  induction l with
  | nil =>
    intro acc _ _
    exact ⟨acc, rfl, by simp⟩
  | cons x xs ih =>
    intro acc hfin hb
    obtain ⟨qx, rfl⟩ : ∃ qx, x = PyFloat.finite qx := by
      have hx := hfin x (by simp)
      cases x with
      | finite q => exact ⟨q, rfl⟩
      | inf b => simp [PyFloat.isFinite] at hx
      | nan => simp [PyFloat.isFinite] at hx
    have hxs_nonneg : (0 : ℚ) ≤ (xs.map (fun f => |f.rat|)).sum := by
      apply List.sum_nonneg
      intro y hy
      simp only [List.mem_map] at hy
      obtain ⟨f, _, rfl⟩ := hy
      exact abs_nonneg _
    have hb2 : |acc.toRat| + (|qx.toRat| + (xs.map (fun f => |f.rat|)).sum) <
        floatOverflowBound.toRat := hb
    have hsum : |(acc.add qx).toRat| ≤ |acc.toRat| + |qx.toRat| := by
      rw [Frac.toRat_add]
      exact abs_add _ _
    have hlt : |(acc.add qx).toRat| < floatOverflowBound.toRat := by
      calc |(acc.add qx).toRat| ≤ |acc.toRat| + |qx.toRat| := hsum
        _ ≤ |acc.toRat| + |qx.toRat| + (xs.map (fun f => |f.rat|)).sum := by linarith
        _ < floatOverflowBound.toRat := by linarith
    have hpa : pyAdd (.finite acc) (.finite qx) = .finite (acc.add qx) := by
      simp [pyAdd, clampFloat_finite _ hlt]
    rw [List.foldl_cons, hpa]
    obtain ⟨q, hq, hqb⟩ := ih (acc.add qx) (fun f hf => hfin f (by simp [hf]))
      (by linarith)
    refine ⟨q, hq, ?_⟩
    show |q.toRat| ≤ |acc.toRat| + (|qx.toRat| + (xs.map (fun f => |f.rat|)).sum)
    calc |q.toRat| ≤ |(acc.add qx).toRat| + (xs.map (fun f => |f.rat|)).sum := hqb
      _ ≤ |acc.toRat| + |qx.toRat| + (xs.map (fun f => |f.rat|)).sum := by linarith
      _ = |acc.toRat| + (|qx.toRat| + (xs.map (fun f => |f.rat|)).sum) := by ring

/-- The overflow bound is a positive rational. -/
theorem floatOverflowBound_toRat_pos : (0 : ℚ) < floatOverflowBound.toRat := by
  have h : (0 : ℤ) < Int.ofNat (Nat.pow 2 1024) :=
    Int.ofNat_pos.mpr (Nat.pos_pow_of_pos 1024 (by norm_num))
  unfold floatOverflowBound Frac.toRat
  push_cast
  rw [div_one]
  exact_mod_cast h

/-- `_compute_summary` uses a convertible non-`None` summary verbatim. -/
theorem computeSummary_verbatim (kvs : List (List Char × PyVal))
    (acts : List DailyPlannerEntry) (travels : List TravelAnalysisEntry) (f : PyFloat)
    (hne : pyGet kvs (("summary_reduction").toList) ≠ PyVal.none)
    (hok : pyFloatFn (pyGet kvs (("summary_reduction").toList)) = Except.ok f) :
    computeSummary (PyVal.dict kvs) acts travels = Except.ok f := by
  unfold computeSummary
  dsimp only []
  cases hv : pyGet kvs (("summary_reduction").toList)
  case none => exact absurd hv hne
  all_goals
    rw [hv] at hok
    simp [hok]

/-- `_compute_summary` falls back to the sum of the `reduced` fields. -/
theorem computeSummary_fallback (kvs : List (List Char × PyVal))
    (acts : List DailyPlannerEntry) (travels : List TravelAnalysisEntry)
    (h : pyGet kvs (("summary_reduction").toList) = PyVal.none ∨
         pyFloatFn (pyGet kvs (("summary_reduction").toList)) = Except.error PyErr.typeError ∨
         pyFloatFn (pyGet kvs (("summary_reduction").toList)) = Except.error PyErr.valueError) :
    computeSummary (PyVal.dict kvs) acts travels = Except.ok (sumReduced acts travels) := by
  unfold computeSummary
  dsimp only []
  rcases h with hnone | herr | herr
  · rw [hnone]
  all_goals
    cases hv : pyGet kvs (("summary_reduction").toList)
    case none => rfl
    all_goals
      rw [hv] at herr
      simp [herr]

/-- With finitely-coercing entries, a finitely-coercing (or absent)
summary value and a reduced-field total inside the float range, the
computed summary is finite. -/
theorem computeSummary_finite (kvs : List (List Char × PyVal))
    (acts : List DailyPlannerEntry) (travels : List TravelAnalysisEntry)
    (hs : coercesFinite (pyGet kvs (("summary_reduction").toList)) = true)
    (hai : acts.all actEntryFinite = true) (hti : travels.all travEntryFinite = true)
    (hb : (acts.map (fun e => |e.reduced.rat|)).sum +
          (travels.map (fun e => |e.reduced.rat|)).sum < floatOverflowBound.toRat) :
    ∃ q, computeSummary (PyVal.dict kvs) acts travels =
          Except.ok (PyFloat.finite q) := by
  have hfin : ∀ f ∈ (acts.map (fun a => a.reduced) ++ travels.map (fun t => t.reduced)),
      f.isFinite = true := by
    intro f hf
    simp only [List.mem_append, List.mem_map] at hf
    rcases hf with ⟨a, hmem, rfl⟩ | ⟨t, hmem, rfl⟩
    · have h2 := List.all_eq_true.mp hai a hmem
      simp only [actEntryFinite, Bool.and_eq_true] at h2
      exact h2.2
    · have h2 := List.all_eq_true.mp hti t hmem
      simp only [travEntryFinite, Bool.and_eq_true] at h2
      exact h2.2
  have hsum' : |(Frac.ofInt 0).toRat| +
      (((acts.map (fun a => a.reduced) ++ travels.map (fun t => t.reduced)).map
        (fun f => |f.rat|)).sum) < floatOverflowBound.toRat := by
    rw [List.map_append, List.sum_append, List.map_map, List.map_map]
    have he : |(Frac.ofInt 0).toRat| = 0 := by
      simp [Frac.toRat_ofInt]
    rw [he]
    have h1 : (acts.map ((fun f => |f.rat|) ∘ (fun a => a.reduced))).sum =
        (acts.map (fun e => |e.reduced.rat|)).sum := rfl
    have h2 : (travels.map ((fun f => |f.rat|) ∘ (fun t => t.reduced))).sum =
        (travels.map (fun e => |e.reduced.rat|)).sum := rfl
    rw [h1, h2]
    linarith
  have hfold : ∃ q0, sumReduced acts travels = PyFloat.finite q0 := by
    unfold sumReduced
    obtain ⟨q0, hq0, _⟩ := foldl_pyAdd_finite _ (Frac.ofInt 0) hfin hsum'
    exact ⟨q0, hq0⟩
  by_cases hnone : pyGet kvs (("summary_reduction").toList) = PyVal.none
  · obtain ⟨q0, h0⟩ := hfold
    exact ⟨q0, by rw [computeSummary_fallback _ _ _ (Or.inl hnone), h0]⟩
  · cases hpf : pyFloatFn (pyGet kvs (("summary_reduction").toList)) with
    | ok f =>
      have hveq := computeSummary_verbatim kvs acts travels f hnone hpf
      unfold coercesFinite toFloat at hs
      rw [hpf] at hs
      cases f with
      | finite q => exact ⟨q, by rw [hveq]⟩
      | inf b => simp at hs
      | nan => simp at hs
    | error e =>
      cases e with
      | typeError =>
        obtain ⟨q0, h0⟩ := hfold
        exact ⟨q0, by rw [computeSummary_fallback _ _ _ (Or.inr (Or.inl hpf)), h0]⟩
      | valueError =>
        obtain ⟨q0, h0⟩ := hfold
        exact ⟨q0, by rw [computeSummary_fallback _ _ _ (Or.inr (Or.inr hpf)), h0]⟩
      | overflowError =>
        unfold coercesFinite toFloat at hs
        rw [hpf] at hs
        simp at hs

/-- The confidence value of a parsed food response coerces finitely
(the default int `0` and `TypeError`/`ValueError` fallbacks included). -/
def confOk (kvs : List (List Char × PyVal)) : Bool :=
  match pyFloatFn (dictGetD kvs (("confidence").toList) (.int 0)) with
  | .ok (.finite _) => true
  | .error .typeError => true
  | .error .valueError => true
  | _ => false

/-- C2 counterexample: the planner pipeline accepts a response whose
`current_co2` is the string `"inf"` — `float("inf")` succeeds — and the
returned entry carries positive infinity, not a finite float. -/
theorem C2_counterexample :
    processParsed (PyVal.dict [((("analysis").toList),
        PyVal.list [PyVal.dict [((("original").toList), PyVal.str (("a").toList)),
                                ((("current_co2").toList), PyVal.str (("inf").toList))]])])
      = Except.ok ⟨[⟨("a").toList, .inf false, [], .finite (Frac.ofInt 0),
                     .finite (Frac.ofInt 0)⟩],
                   [], .finite (Frac.ofInt 0)⟩ ∧
    PyFloat.isFinite (.inf false) = false := by
  constructor
  · rfl
  · rfl

/-- C2 amended: numeric response fields are floats but need not be
finite; they are finite whenever every value the mapper coerces is
finite-coercing (non-numeric and missing values default to the finite
`0.0`), the summary value (if any) coerces finitely, and the total of
the `reduced` magnitudes stays inside the float range.  Likewise the
food classifier's confidence is finite whenever its raw value coerces
finitely. -/
theorem C2_finiteness_amended (kvs : List (List Char × PyVal))
    (resp : DailyPlannerResponse)
    (hp : processParsed (PyVal.dict kvs) = Except.ok resp)
    (ha : ∀ items, iterEntries (pyOr (pyGet kvs (("analysis").toList)) (.list [])) =
            Except.ok items → items.all actNumsOk = true)
    (ht : ∀ items, iterEntries (pyOr (pyGet kvs (("travel_analysis").toList)) (.list [])) =
            Except.ok items → items.all travNumsOk = true)
    (hs : coercesFinite (pyGet kvs (("summary_reduction").toList)) = true)
    (hb : (resp.analysis.map (fun e => |e.reduced.rat|)).sum +
          (resp.travel_analysis.map (fun e => |e.reduced.rat|)).sum <
            floatOverflowBound.toRat) :
    respNumsFinite resp = true ∧
    (∀ mn kvs2 r2, mapToResponse mn (PyVal.dict kvs2) = Except.ok r2 →
       confOk kvs2 = true → r2.item.confidence.isFinite = true) := by
  constructor
  · unfold processParsed at hp
    obtain ⟨⟨acts, travels⟩, hme, hp⟩ := exBindOk hp
    obtain ⟨s, hcs, hp⟩ := exBindOk hp
    have hresp : resp = ⟨acts, travels, s⟩ := by
      have h2 : Except.ok (⟨acts, travels, s⟩ : DailyPlannerResponse) = Except.ok resp := hp
      injection h2 with h3
      exact h3.symm
    subst hresp
    unfold mapEntries at hme
    dsimp only [] at hme
    obtain ⟨aitems, hai, hme⟩ := exBindOk hme
    obtain ⟨acts2, hacts, hme⟩ := exBindOk hme
    obtain ⟨titems, hti, hme⟩ := exBindOk hme
    obtain ⟨travels2, htravels, hme⟩ := exBindOk hme
    have hpair : acts2 = acts ∧ travels2 = travels := by
      have h2 : Except.ok (acts2, travels2) =
          Except.ok ((acts, travels) : List DailyPlannerEntry × List TravelAnalysisEntry) := hme
      injection h2 with h3
      exact ⟨congrArg Prod.fst h3, congrArg Prod.snd h3⟩
    rw [hpair.1] at hacts
    rw [hpair.2] at htravels
    have hfa : acts.all actEntryFinite = true :=
      mapM_activity_finite aitems acts (ha aitems hai) hacts
    have hft : travels.all travEntryFinite = true :=
      mapM_travel_finite titems travels (ht titems hti) htravels
    obtain ⟨q, hq⟩ := computeSummary_finite kvs acts travels hs hfa hft hb
    have hseq : (Except.ok s : Except Failure PyFloat) =
        Except.ok (PyFloat.finite q) := by rw [← hcs, hq]
    have hs2 : s = PyFloat.finite q := by injection hseq
    subst hs2
    simp [respNumsFinite, hfa, hft, PyFloat.isFinite]
  · intro mn kvs2 r2 hm hc
    unfold mapToResponse at hm
    dsimp only [] at hm
    split at hm
    · simp at hm
    · obtain ⟨conf, hconf, hm⟩ := exBindOk hm
      have hcf : conf.isFinite = true := by
        unfold confOk at hc
        cases hpf : pyFloatFn (dictGetD kvs2 (("confidence").toList) (.int 0)) with
        | ok f =>
          rw [hpf] at hconf hc
          cases f with
          | finite q =>
            have h2 : Except.ok (PyFloat.finite q) = Except.ok conf := hconf
            injection h2 with h3
            rw [← h3]
            rfl
          | inf b => simp at hc
          | nan => simp at hc
        | error e =>
          rw [hpf] at hconf hc
          cases e with
          | typeError =>
            have h2 : Except.ok (PyFloat.finite (Frac.ofInt 0)) = Except.ok conf := hconf
            injection h2 with h3
            rw [← h3]
            rfl
          | valueError =>
            have h2 : Except.ok (PyFloat.finite (Frac.ofInt 0)) = Except.ok conf := hconf
            injection h2 with h3
            rw [← h3]
            rfl
          | overflowError => simp at hc
      split at hm
      · rename_i ns tl eo hname htags hexpl
        have h2 : Except.ok (⟨⟨ns, tl, conf, eo, some mn⟩⟩ : FoodImageResponse) =
            Except.ok r2 := hm
        injection h2 with h3
        rw [← h3]
        exact hcf
      · simp at hm

/-- Concrete witness input for the finiteness theorem. -/
def c2wKvs : List (List Char × PyVal) :=
  [((("analysis").toList),
    PyVal.list [PyVal.dict [((("original").toList), PyVal.str (("a").toList)),
                            ((("current_co2").toList), PyVal.int 2)]])]

/-- Concrete witness output for the finiteness theorem. -/
def c2wResp : DailyPlannerResponse :=
  ⟨[⟨("a").toList, .finite (Frac.ofInt 2), [], .finite (Frac.ofInt 0),
     .finite (Frac.ofInt 0)⟩],
   [], .finite (Frac.ofInt 0)⟩

/-- C2 witness: a planner response with one well-formed activity entry
(current_co2 the integer 2) is accepted and every numeric field of the
result is finite. -/
theorem C2_finiteness_amended_witness :
    processParsed (PyVal.dict c2wKvs) = Except.ok c2wResp ∧
    respNumsFinite c2wResp = true := by
  constructor
  · rfl
  · refine (C2_finiteness_amended c2wKvs c2wResp rfl ?_ ?_ rfl ?_).1
    · intro items h
      have h2 : Except.ok [PyVal.dict [((("original").toList), PyVal.str (("a").toList)),
                                       ((("current_co2").toList), PyVal.int 2)]] =
          Except.ok items := h
      injection h2 with h3
      subst h3
      decide
    · intro items h
      have h2 : Except.ok ([] : List PyVal) = Except.ok items := h
      injection h2 with h3
      subst h3
      rfl
    · have hz : (c2wResp.analysis.map (fun e => |e.reduced.rat|)).sum +
          (c2wResp.travel_analysis.map (fun e => |e.reduced.rat|)).sum = 0 := by
        simp [c2wResp, PyFloat.rat, Frac.toRat_ofInt]
      rw [hz]
      exact floatOverflowBound_toRat_pos

/-- Dict discriminator (Python objects). -/
def isDict : PyVal → Bool
  | .dict _ => true
  | _ => false

/-- An activity entry that is an object whose numeric fields do not
raise `OverflowError` under `_to_float`. -/
def actItemSafe (item : PyVal) : Bool :=
  match item with
  | .dict kvs =>
    noOverflow (pyGet kvs (("current_co2").toList)) &&
    noOverflow (pyGet kvs (("alternative_co2").toList)) &&
    noOverflow (pyGet kvs (("reduced").toList))
  | _ => false

/-- A travel entry that is an object whose numeric fields do not raise. -/
def travItemSafe (item : PyVal) : Bool :=
  match item with
  | .dict kvs =>
    noOverflow (pyGet kvs (("distance_km").toList)) &&
    noOverflow (pyGet kvs (("current_co2").toList)) &&
    noOverflow (pyGet kvs (("recommended_co2").toList)) &&
    noOverflow (pyGet kvs (("reduced").toList))
  | _ => false

/-- A non-raising value gives `liftToFloat` some float. -/
theorem liftToFloat_ok (v : PyVal) (h : noOverflow v = true) :
    ∃ f, liftToFloat v = Except.ok f := by
  unfold noOverflow at h
  unfold liftToFloat
  cases htf : toFloat v with
  | error e => rw [htf] at h; simp at h
  | ok f => exact ⟨f, rfl⟩

/-- A safe activity entry maps to a value or to the 502 schema mismatch. -/
theorem mapActivityItem_ok_or (item : PyVal) (h : actItemSafe item = true) :
    (∃ e, mapActivityItem item = Except.ok e) ∨
    mapActivityItem item = Except.error (.http 502 schemaMismatchDetail) := by
  cases item with
  | dict kvs =>
    unfold actItemSafe at h
    simp only [Bool.and_eq_true] at h
    obtain ⟨⟨h1, h2⟩, h3⟩ := h
    obtain ⟨f1, hf1⟩ := liftToFloat_ok _ h1
    obtain ⟨f2, hf2⟩ := liftToFloat_ok _ h2
    obtain ⟨f3, hf3⟩ := liftToFloat_ok _ h3
    unfold mapActivityItem
    simp only [hf1, hf2, hf3, Bind.bind, Except.bind, schemaMismatchDetail]
    cases pyOr (pyGet kvs (("original").toList))
        (pyOr (pyGet kvs (("activity").toList)) (.str []))
    case str sa =>
      cases pyOr (pyGet kvs (("alternative").toList))
          (pyOr (pyGet kvs (("recommended").toList)) (.str []))
      case str sb => exact Or.inl ⟨_, rfl⟩
      all_goals exact Or.inr rfl
    all_goals exact Or.inr rfl
  | none => simp [actItemSafe] at h
  | bool b => simp [actItemSafe] at h
  | int n => simp [actItemSafe] at h
  | float f => simp [actItemSafe] at h
  | str s => simp [actItemSafe] at h
  | list l => simp [actItemSafe] at h

/-- A safe travel entry maps to a value or to the 502 schema mismatch. -/
theorem mapTravelItem_ok_or (item : PyVal) (h : travItemSafe item = true) :
    (∃ e, mapTravelItem item = Except.ok e) ∨
    mapTravelItem item = Except.error (.http 502 schemaMismatchDetail) := by
  cases item with
  | dict kvs =>
    unfold travItemSafe at h
    simp only [Bool.and_eq_true] at h
    obtain ⟨⟨⟨h1, h2⟩, h3⟩, h4⟩ := h
    obtain ⟨f1, hf1⟩ := liftToFloat_ok _ h1
    obtain ⟨f2, hf2⟩ := liftToFloat_ok _ h2
    obtain ⟨f3, hf3⟩ := liftToFloat_ok _ h3
    obtain ⟨f4, hf4⟩ := liftToFloat_ok _ h4
    unfold mapTravelItem
    simp only [hf1, hf2, hf3, hf4, Bind.bind, Except.bind, schemaMismatchDetail]
    cases pyOr (pyGet kvs (("origin").toList)) (.str [])
    case str sa =>
      cases pyOr (pyGet kvs (("destination").toList)) (.str [])
      case str sb =>
        cases pyOr (pyGet kvs (("current_mode").toList))
            (pyOr (pyGet kvs (("mode").toList)) (.str (("car").toList)))
        case str sc =>
          cases pyOr (pyGet kvs (("recommended_mode").toList))
              (pyOr (pyGet kvs (("mode").toList)) (.str []))
          case str sd => exact Or.inl ⟨_, rfl⟩
          all_goals exact Or.inr rfl
        all_goals exact Or.inr rfl
      all_goals exact Or.inr rfl
    all_goals exact Or.inr rfl
  | none => simp [travItemSafe] at h
  | bool b => simp [travItemSafe] at h
  | int n => simp [travItemSafe] at h
  | float f => simp [travItemSafe] at h
  | str s => simp [travItemSafe] at h
  | list l => simp [travItemSafe] at h

/-- Mapping a list of safe activity entries yields the mapped list or
the 502 schema mismatch. -/
theorem mapM_activity_ok_or :
    ∀ (items : List PyVal), items.all actItemSafe = true →
      (∃ es, items.mapM mapActivityItem = Except.ok es) ∨
      items.mapM mapActivityItem = Except.error (.http 502 schemaMismatchDetail) := by
  intro items
  induction items with
  | nil => intro _; exact Or.inl ⟨[], by rw [List.mapM_nil]; rfl⟩
  | cons x xs ih =>
    intro hall
    simp only [List.all_cons, Bool.and_eq_true] at hall
    rw [List.mapM_cons]
    rcases mapActivityItem_ok_or x hall.1 with ⟨e, he⟩ | he
    · rcases ih hall.2 with ⟨es, hes⟩ | hes
      · exact Or.inl ⟨e :: es, by simp only [Bind.bind, Except.bind, he, hes]; rfl⟩
      · exact Or.inr (by simp only [Bind.bind, Except.bind, he, hes])
    · exact Or.inr (by simp only [Bind.bind, Except.bind, he])

/-- Mapping a list of safe travel entries yields the mapped list or the
502 schema mismatch. -/
theorem mapM_travel_ok_or :
    ∀ (items : List PyVal), items.all travItemSafe = true →
      (∃ es, items.mapM mapTravelItem = Except.ok es) ∨
      items.mapM mapTravelItem = Except.error (.http 502 schemaMismatchDetail) := by
  intro items
  induction items with
  | nil => intro _; exact Or.inl ⟨[], by rw [List.mapM_nil]; rfl⟩
  | cons x xs ih =>
    intro hall
    simp only [List.all_cons, Bool.and_eq_true] at hall
    rw [List.mapM_cons]
    rcases mapTravelItem_ok_or x hall.1 with ⟨e, he⟩ | he
    · rcases ih hall.2 with ⟨es, hes⟩ | hes
      · exact Or.inl ⟨e :: es, by simp only [Bind.bind, Except.bind, he, hes]; rfl⟩
      · exact Or.inr (by simp only [Bind.bind, Except.bind, he, hes])
    · exact Or.inr (by simp only [Bind.bind, Except.bind, he])

/-- A non-overflowing summary value keeps `_compute_summary` from
raising. -/
theorem computeSummary_ok (kvs : List (List Char × PyVal))
    (acts : List DailyPlannerEntry) (travels : List TravelAnalysisEntry)
    (h : pyFloatFn (pyGet kvs (("summary_reduction").toList)) ≠
           Except.error PyErr.overflowError) :
    ∃ sres, computeSummary (PyVal.dict kvs) acts travels = Except.ok sres := by
  by_cases hnone : pyGet kvs (("summary_reduction").toList) = PyVal.none
  · exact ⟨_, computeSummary_fallback _ _ _ (Or.inl hnone)⟩
  · cases hpf : pyFloatFn (pyGet kvs (("summary_reduction").toList)) with
    | ok f => exact ⟨f, computeSummary_verbatim _ _ _ f hnone hpf⟩
    | error e =>
      cases e with
      | typeError => exact ⟨_, computeSummary_fallback _ _ _ (Or.inr (Or.inl hpf))⟩
      | valueError => exact ⟨_, computeSummary_fallback _ _ _ (Or.inr (Or.inr hpf))⟩
      | overflowError => exact absurd hpf h

/-- C7 counterexample: a model response parsing to the JSON array `[]`
hits `parsed.get` on a Python list in both the daily planner and the
food classifier, raising an uncaught `AttributeError` (a generic 500)
instead of the 502 schema mismatch the claim requires. -/
theorem C7_counterexample :
    processParsed (PyVal.list []) =
      Except.error (.uncaught (("AttributeError").toList)) ∧
    mapToResponse (("m").toList) (PyVal.list []) =
      Except.error (.uncaught (("AttributeError").toList)) ∧
    Failure.uncaught (("AttributeError").toList) ≠
      Failure.http 502 schemaMismatchDetail := by
  refine ⟨rfl, rfl, ?_⟩
  simp

/-- C7 amended: `calc_co2` turns every validation failure into the 502
schema mismatch, for parsed values of any JSON shape; the daily planner
and food classifier do so only when the parsed top level (and, for the
planner, every entry) is an object — a non-object instead raises an
uncaught `AttributeError`; objects whose numeric leaves do not overflow
fail, if at all, with 502 errors. -/
theorem C7_schema_mismatch_amended :
    (∀ parsed, validateCalcResponse parsed = Option.none →
       calcValidateStep parsed = Except.error (.http 502 schemaMismatchDetail)) ∧
    (∀ v, isDict v = false →
       processParsed v = Except.error (.uncaught (("AttributeError").toList))) ∧
    (∀ kvs,
       (∃ items, iterEntries (pyOr (pyGet kvs (("analysis").toList)) (.list [])) =
          Except.ok items ∧ items.all actItemSafe = true) →
       (∃ items, iterEntries (pyOr (pyGet kvs (("travel_analysis").toList)) (.list [])) =
          Except.ok items ∧ items.all travItemSafe = true) →
       pyFloatFn (pyGet kvs (("summary_reduction").toList)) ≠
         Except.error PyErr.overflowError →
       (∃ r, processParsed (PyVal.dict kvs) = Except.ok r) ∨
       processParsed (PyVal.dict kvs) = Except.error (.http 502 schemaMismatchDetail)) ∧
    (∀ mn v, isDict v = false →
       mapToResponse mn v = Except.error (.uncaught (("AttributeError").toList))) ∧
    (∀ mn kvs, pyFloatFn (dictGetD kvs (("confidence").toList) (.int 0)) ≠
         Except.error PyErr.overflowError →
       (∃ r, mapToResponse mn (PyVal.dict kvs) = Except.ok r) ∨
       (∃ d, mapToResponse mn (PyVal.dict kvs) = Except.error (.http 502 d))) := by
  refine ⟨?_, ?_, ?_, ?_, ?_⟩
  · intro parsed h
    unfold calcValidateStep
    rw [h]
    rfl
  · intro v h
    cases v with
    | dict kvs => simp [isDict] at h
    | none => rfl
    | bool b => rfl
    | int n => rfl
    | float f => rfl
    | str s => rfl
    | list l => rfl
  · intro kvs ⟨aitems, hai, haSafe⟩ ⟨titems, hti, htSafe⟩ hsum
    unfold processParsed mapEntries
    dsimp only []
    rcases mapM_activity_ok_or aitems haSafe with ⟨acts, hacts⟩ | hacts
    · rcases mapM_travel_ok_or titems htSafe with ⟨travels, htravels⟩ | htravels
      · obtain ⟨sres, hs⟩ := computeSummary_ok kvs acts travels hsum
        refine Or.inl ⟨⟨acts, travels, sres⟩, ?_⟩
        simp only [Bind.bind, Except.bind, hai, hacts, hti, htravels, hs]
      · refine Or.inr ?_
        simp only [Bind.bind, Except.bind, hai, hacts, hti, htravels]
    · refine Or.inr ?_
      simp only [Bind.bind, Except.bind, hai, hacts]
  · intro mn v h
    cases v with
    | dict kvs => simp [isDict] at h
    | none => rfl
    | bool b => rfl
    | int n => rfl
    | float f => rfl
    | str s => rfl
    | list l => rfl
  · intro mn kvs hconf
    unfold mapToResponse
    dsimp only []
    split
    · exact Or.inr ⟨_, rfl⟩
    · have hc : ∃ cf, (match pyFloatFn (dictGetD kvs (("confidence").toList) (.int 0)) with
         | Except.ok f => Except.ok f
         | Except.error PyErr.overflowError =>
             Except.error (Failure.uncaught (("OverflowError").toList))
         | Except.error _ => Except.ok (PyFloat.finite (Frac.ofInt 0))) =
           (Except.ok cf : Except Failure PyFloat) := by
        cases hpf : pyFloatFn (dictGetD kvs (("confidence").toList) (.int 0)) with
        | ok f => exact ⟨f, rfl⟩
        | error e =>
          cases e with
          | typeError => exact ⟨.finite (Frac.ofInt 0), rfl⟩
          | valueError => exact ⟨.finite (Frac.ofInt 0), rfl⟩
          | overflowError => exact absurd hpf hconf
      obtain ⟨cf, hcf⟩ := hc
      simp only [Bind.bind, Except.bind, hcf]
      split
      · exact Or.inl ⟨_, rfl⟩
      · exact Or.inr ⟨_, rfl⟩

/-- C7 witness: a planner object whose `"analysis"` holds one object
entry with a non-numeric `reduced` maps without an uncaught exception
(here, successfully), and an unvalidatable calc response is a 502. -/
theorem C7_schema_mismatch_amended_witness :
    ((∃ r, processParsed (PyVal.dict [((("analysis").toList),
        PyVal.list [PyVal.dict [((("reduced").toList), PyVal.str (("x").toList))]])]) =
        Except.ok r) ∨
      processParsed (PyVal.dict [((("analysis").toList),
        PyVal.list [PyVal.dict [((("reduced").toList), PyVal.str (("x").toList))]])]) =
        Except.error (.http 502 schemaMismatchDetail)) ∧
    calcValidateStep (PyVal.list []) = Except.error (.http 502 schemaMismatchDetail) := by
  constructor
  · refine (C7_schema_mismatch_amended.2.2.1 _ ?_ ?_ ?_)
    · exact ⟨_, rfl, by decide⟩
    · exact ⟨[], rfl, rfl⟩
    · intro h
      have h2 : Except.error PyErr.typeError = Except.error PyErr.overflowError := h
      injection h2 with h3
      cases h3
  · exact C7_schema_mismatch_amended.1 (PyVal.list []) rfl

/-! ## Metatheory of the JSON parser

The two facts the parse-strategy claims need: a successful parse starts
at a JSON value-starter character (never a backtick), and the text the
parser consumes never ends in whitespace.  Together they show that
Python-stripping a parseable text does not change its parse. -/

/-- Predicate: every character of the list satisfies `p`. -/
theorem dropWhile_all_app (p : Char → Bool) :
    ∀ (a b : List Char), (∀ c ∈ a, p c = true) →
      (a ++ b).dropWhile p = b.dropWhile p := by
  intro a
  induction a with
  | nil => intro b _; rfl
  | cons x xs ih =>
    intro b h
    have hx : p x = true := h x (by simp)
    simp only [List.cons_append, List.dropWhile_cons, hx, if_true]
    exact ih b (fun c hc => h c (by simp [hc]))

/-- Dropping stops at a first character that fails the predicate. -/
theorem dropWhile_cons_neg (p : Char → Bool) (c : Char) (b : List Char)
    (h : p c = false) : (c :: b).dropWhile p = c :: b := by
  simp [List.dropWhile_cons, h]

/-- Taking while stops exactly at the boundary. -/
theorem takeWhile_all_app (p : Char → Bool) :
    ∀ (a b : List Char), (∀ c ∈ a, p c = true) →
      (∀ c, b.head? = some c → p c = false) →
      (a ++ b).takeWhile p = a ∧ (a ++ b).dropWhile p = b := by
  intro a
  induction a with
  | nil =>
    intro b _ hb
    cases b with
    | nil => exact ⟨rfl, rfl⟩
    | cons x xs =>
      have hx : p x = false := hb x rfl
      simp [List.takeWhile_cons, List.dropWhile_cons, hx]
  | cons x xs ih =>
    intro b h hb
    have hx : p x = true := h x (by simp)
    have := ih b (fun c hc => h c (by simp [hc])) hb
    simp [List.takeWhile_cons, List.dropWhile_cons, hx, this.1, this.2]

/-- Last element of an append with nonempty right part. -/
theorem getLastQ_app : ∀ (a b : List Char), b ≠ [] →
    (a ++ b).getLast? = b.getLast? := by
  intro a
  induction a with
  | nil => intro b _; rfl
  | cons x xs ih =>
    intro b hb
    rw [List.cons_append]
    rw [List.getLast?_cons]
    rw [ih b hb]
    cases b with
    | nil => exact absurd rfl hb
    | cons y ys =>
      simp [List.getLast?_cons]

/-- Characters that can start a JSON value in `parseVal`. -/
def isStarter (c : Char) : Bool :=
  c = 'n' || c = 't' || c = 'f' || c = 'N' || c = 'I' || c = '"' ||
  c = '[' || c = '{' || c = '-' || c.isDigit

/-- A digit is not Python whitespace. -/
theorem isDigit_not_pyws {c : Char} (h : c.isDigit = true) : isPyWs c = false := by
  cases hp : isPyWs c
  · rfl
  · exfalso
    simp only [isPyWs, Bool.or_eq_true, decide_eq_true_eq] at hp
    rcases hp with ((((((((((rfl | rfl) | rfl) | rfl) | rfl) | rfl) | rfl) | rfl) |
      rfl) | rfl) | rfl) | rfl <;> simp [Char.isDigit] at h

/-- A digit is not a backtick. -/
theorem isDigit_ne_tick {c : Char} (h : c.isDigit = true) : c ≠ '`' := by
  intro hc
  subst hc
  simp [Char.isDigit] at h

/-- A value-starter character is not Python whitespace. -/
theorem isStarter_not_pyws {c : Char} (h : isStarter c = true) : isPyWs c = false := by
  simp only [isStarter, Bool.or_eq_true, decide_eq_true_eq] at h
  rcases h with ((((((((rfl | rfl) | rfl) | rfl) | rfl) | rfl) | rfl) | rfl) | rfl) | hd
  all_goals first
  | rfl
  | exact isDigit_not_pyws hd

/-- A value-starter character is not a backtick. -/
theorem isStarter_ne_tick {c : Char} (h : isStarter c = true) : c ≠ '`' := by
  simp only [isStarter, Bool.or_eq_true, decide_eq_true_eq] at h
  rcases h with ((((((((rfl | rfl) | rfl) | rfl) | rfl) | rfl) | rfl) | rfl) | rfl) | hd
  all_goals first
  | decide
  | exact isDigit_ne_tick hd

/-- The text a parse step consumes must not end in whitespace; this is
the key invariant letting `str.strip()` commute with parsing. -/
def lastNonWs (X : List Char) : Prop :=
  ∀ c, X.getLast? = some c → isPyWs c = false

/-- A nonempty list has a last element, and it is a member. -/
theorem lastQ_of_ne_nil : ∀ {X : List Char}, X ≠ [] →
    ∃ c, X.getLast? = some c ∧ c ∈ X := by
  intro X
  induction X with
  | nil => intro h; exact absurd rfl h
  | cons x xs ih =>
    intro _
    cases xs with
    | nil => exact ⟨x, rfl, by simp⟩
    | cons y ys =>
      obtain ⟨c, hc, hm⟩ := ih (by simp)
      exact ⟨c, by rw [List.getLast?_cons_cons]; exact hc, by simp [hm]⟩

/-- A nonempty all-digit list ends in a digit. -/
theorem exists_last_digit {X : List Char} (hne : X ≠ [])
    (hall : ∀ c ∈ X, c.isDigit = true) :
    ∃ c, X.getLast? = some c ∧ c.isDigit = true := by
  obtain ⟨c, hc, hm⟩ := lastQ_of_ne_nil hne
  exact ⟨c, hc, hall c hm⟩

/-- `lastNonWs` transfers along an append with nonempty right part. -/
theorem lastNonWs_app {X Y : List Char} (hY : Y ≠ []) (h : lastNonWs Y) :
    lastNonWs (X ++ Y) := by
  intro c hc
  rw [getLastQ_app X Y hY] at hc
  exact h c hc

/-- A list ending in a digit does not end in Python whitespace. -/
theorem lastNonWs_of_last_digit {X : List Char}
    (h : ∃ c, X.getLast? = some c ∧ c.isDigit = true) : lastNonWs X := by
  intro c hc
  obtain ⟨d, hd, hdig⟩ := h
  rw [hc] at hd
  injection hd with hd
  subst hd
  exact isDigit_not_pyws hdig

/-- Decomposition of a successful integer-part lex: the consumed prefix
is a nonempty run of digits. -/
theorem lexInt_dec {t ip r : List Char} (h : lexInt t = some (ip, r)) :
    t = ip ++ r ∧ ip ≠ [] ∧ ∀ c ∈ ip, c.isDigit = true := by
  unfold lexInt at h
  split at h
  · simp only [Option.some.injEq, Prod.mk.injEq] at h
    obtain ⟨h1, h2⟩ := h
    subst h1; subst h2
    refine ⟨rfl, by simp, ?_⟩
    intro c hc
    simp only [List.mem_singleton] at hc
    subst hc
    decide
  · rename_i c rest
    split at h
    · rename_i hd
      simp only [Option.some.injEq, Prod.mk.injEq] at h
      obtain ⟨h1, h2⟩ := h
      subst h1; subst h2
      refine ⟨(List.takeWhile_append_dropWhile _ _).symm, ?_, ?_⟩
      · simp [List.takeWhile_cons, hd]
      · intro x hx
        exact List.mem_takeWhile_imp hx
    · exact absurd h (by simp)
  · exact absurd h (by simp)

/-- Decomposition of the fraction lexer: either nothing is consumed, or
a dot followed by a nonempty digit run, ending in a digit. -/
theorem lexFrac_dec {t fp r : List Char} (h : lexFrac t = (fp, r)) :
    (fp = [] ∧ r = t) ∨
    (t = fp ++ r ∧ fp ≠ [] ∧ ∃ c, fp.getLast? = some c ∧ c.isDigit = true) := by
  unfold lexFrac at h
  split at h
  · rename_i r0
    split at h
    · left
      simp only [Prod.mk.injEq] at h
      exact ⟨h.1.symm, h.2.symm⟩
    · rename_i htw
      right
      simp only [Prod.mk.injEq] at h
      obtain ⟨h1, h2⟩ := h
      subst h1; subst h2
      refine ⟨by rw [List.cons_append, List.takeWhile_append_dropWhile], by simp, ?_⟩
      have hlast := exists_last_digit (X := r0.takeWhile Char.isDigit) htw
        (fun c hc => List.mem_takeWhile_imp hc)
      obtain ⟨c, hc, hdig⟩ := hlast
      refine ⟨c, ?_, hdig⟩
      have : ('.' :: r0.takeWhile Char.isDigit) = ['.'] ++ r0.takeWhile Char.isDigit := rfl
      rw [this, getLastQ_app _ _ htw]
      exact hc
  · left
    simp only [Prod.mk.injEq] at h
    exact ⟨h.1.symm, h.2.symm⟩

/-- Decomposition of the exponent lexer: either nothing is consumed, or
an `e`/`E`, optional sign and nonempty digit run, ending in a digit. -/
theorem lexExp_dec {t ep r : List Char} (h : lexExp t = (ep, r)) :
    (ep = [] ∧ r = t) ∨
    (t = ep ++ r ∧ ep ≠ [] ∧ ∃ c, ep.getLast? = some c ∧ c.isDigit = true) := by
  unfold lexExp at h
  split at h
  · rename_i e r0
    split at h
    · rename_i he
      split at h
      · rename_i r2
        split at h
        · left
          simp only [Prod.mk.injEq] at h
          exact ⟨h.1.symm, h.2.symm⟩
        · rename_i htw
          right
          simp only [Prod.mk.injEq] at h
          obtain ⟨h1, h2⟩ := h
          subst h1; subst h2
          refine ⟨by rw [List.cons_append, List.cons_append, List.takeWhile_append_dropWhile], by simp, ?_⟩
          obtain ⟨c, hc, hdig⟩ := exists_last_digit (X := r2.takeWhile Char.isDigit) htw
            (fun c hc => List.mem_takeWhile_imp hc)
          refine ⟨c, ?_, hdig⟩
          have : (e :: '-' :: r2.takeWhile Char.isDigit) = [e, '-'] ++ r2.takeWhile Char.isDigit := rfl
          rw [this, getLastQ_app _ _ htw]
          exact hc
      · rename_i r2
        split at h
        · left
          simp only [Prod.mk.injEq] at h
          exact ⟨h.1.symm, h.2.symm⟩
        · rename_i htw
          right
          simp only [Prod.mk.injEq] at h
          obtain ⟨h1, h2⟩ := h
          subst h1; subst h2
          refine ⟨by rw [List.cons_append, List.cons_append, List.takeWhile_append_dropWhile], by simp, ?_⟩
          obtain ⟨c, hc, hdig⟩ := exists_last_digit (X := r2.takeWhile Char.isDigit) htw
            (fun c hc => List.mem_takeWhile_imp hc)
          refine ⟨c, ?_, hdig⟩
          have : (e :: '+' :: r2.takeWhile Char.isDigit) = [e, '+'] ++ r2.takeWhile Char.isDigit := rfl
          rw [this, getLastQ_app _ _ htw]
          exact hc
      · split at h
        · left
          simp only [Prod.mk.injEq] at h
          exact ⟨h.1.symm, h.2.symm⟩
        · rename_i htw
          right
          simp only [Prod.mk.injEq] at h
          obtain ⟨h1, h2⟩ := h
          subst h1; subst h2
          refine ⟨by rw [List.cons_append, List.takeWhile_append_dropWhile], by simp, ?_⟩
          obtain ⟨c, hc, hdig⟩ := exists_last_digit (X := r0.takeWhile Char.isDigit) htw
            (fun c hc => List.mem_takeWhile_imp hc)
          refine ⟨c, ?_, hdig⟩
          have : (e :: r0.takeWhile Char.isDigit) = [e] ++ r0.takeWhile Char.isDigit := rfl
          rw [this, getLastQ_app _ _ htw]
          exact hc
    · left
      simp only [Prod.mk.injEq] at h
      exact ⟨h.1.symm, h.2.symm⟩
  · left
    simp only [Prod.mk.injEq] at h
    exact ⟨h.1.symm, h.2.symm⟩

/-- Gluing step for parse decompositions: prepending the already-consumed
characters preserves the shape of the decomposition. -/
theorem dec_glue (pre X' r2 r : List Char) (h2 : r2 = X' ++ r) (hne : X' ≠ [])
    (hl : X'.getLast? = some '"') :
    pre ++ r2 = (pre ++ X') ++ r ∧ pre ++ X' ≠ [] ∧ (pre ++ X').getLast? = some '"' := by
  refine ⟨by rw [h2, List.append_assoc], by simp [hne], ?_⟩
  rw [getLastQ_app _ _ hne]
  exact hl

/-- Fueled decomposition of a successful string-body parse: the consumed
text ends with the closing quote. -/
theorem parseStrBody_decAux : ∀ n s cs r, s.length ≤ n → parseStrBody s = some (cs, r) →
    ∃ X, s = X ++ r ∧ X ≠ [] ∧ X.getLast? = some '"' := by
  intro n
  induction n with
  | zero =>
    intro s cs r hlen h
    cases s with
    | nil => exact absurd h (by simp [parseStrBody])
    | cons c rest => simp at hlen
  | succ n ih =>
    intro s cs r hlen h
    cases s with
    | nil => exact absurd h (by simp [parseStrBody])
    | cons c r0 =>
      rw [parseStrBody.eq_def] at h
      dsimp only [] at h
      split at h
      · rename_i hc
        subst hc
        simp only [Option.some.injEq, Prod.mk.injEq] at h
        exact ⟨['"'], by rw [h.2, List.singleton_append], by simp, rfl⟩
      · split at h
        · rename_i hc
          subst hc
          split at h
          · exact absurd h (by simp)
          · rename_i e r2
            split at h
            · rename_i hu
              subst hu
              split at h
              · rename_i h1 h2 h3 h4 r3
                split at h
                · cases hps : parseStrBody r3 with
                  | none => rw [hps] at h; simp at h
                  | some p =>
                    rw [hps] at h
                    obtain ⟨cs3, rest⟩ := p
                    dsimp only [Option.map] at h
                    simp only [Option.some.injEq, Prod.mk.injEq] at h
                    have hlen3 : r3.length ≤ n := by
                      simp only [List.length_cons] at hlen
                      omega
                    obtain ⟨X', hX1, hX2, hX3⟩ := ih r3 cs3 rest hlen3 hps
                    refine ⟨['\\', 'u', h1, h2, h3, h4] ++ X', ?_⟩
                    rw [← h.2]
                    exact dec_glue ['\\', 'u', h1, h2, h3, h4] X' r3 rest hX1 hX2 hX3
                · exact absurd h (by simp)
              all_goals exact absurd h (by simp)
            · split at h
              · rename_i d hesc
                cases hps : parseStrBody r2 with
                | none => rw [hps] at h; simp at h
                | some p =>
                  rw [hps] at h
                  obtain ⟨cs2, rest⟩ := p
                  dsimp only [Option.map] at h
                  simp only [Option.some.injEq, Prod.mk.injEq] at h
                  have hlen2 : r2.length ≤ n := by
                    simp only [List.length_cons] at hlen
                    omega
                  obtain ⟨X', hX1, hX2, hX3⟩ := ih r2 cs2 rest hlen2 hps
                  refine ⟨['\\', e] ++ X', ?_⟩
                  rw [← h.2]
                  exact dec_glue ['\\', e] X' r2 rest hX1 hX2 hX3
              · exact absurd h (by simp)
        · split at h
          · exact absurd h (by simp)
          · cases hps : parseStrBody r0 with
            | none => rw [hps] at h; simp at h
            | some p =>
              rw [hps] at h
              obtain ⟨cs0, rest⟩ := p
              dsimp only [Option.map] at h
              simp only [Option.some.injEq, Prod.mk.injEq] at h
              have hlen0 : r0.length ≤ n := by
                simp only [List.length_cons] at hlen
                omega
              obtain ⟨X', hX1, hX2, hX3⟩ := ih r0 cs0 rest hlen0 hps
              refine ⟨[c] ++ X', ?_⟩
              rw [← h.2]
              exact dec_glue [c] X' r0 rest hX1 hX2 hX3

/-- Decomposition of a successful string-body parse. -/
theorem parseStrBody_dec {s cs r : List Char} (h : parseStrBody s = some (cs, r)) :
    ∃ X, s = X ++ r ∧ X ≠ [] ∧ X.getLast? = some '"' :=
  parseStrBody_decAux s.length s cs r (le_refl _) h

/-- `numRest` on a non-minus head is the identity. -/
theorem numRest_cons {c : Char} (u : List Char) (h : c ≠ '-') :
    numRest (c :: u) = c :: u := by
  unfold numRest
  split
  · rename_i heq
    injection heq with h1 _
    exact absurd h1 h
  · rfl

/-- Decomposition of a successful number parse: the consumed literal is
nonempty and ends in a digit. -/
theorem parseNum_dec {t : List Char} {v : PyVal} {r : List Char}
    (h : parseNum t = some (v, r)) :
    ∃ X, t = X ++ r ∧ X ≠ [] ∧ ∃ c, X.getLast? = some c ∧ c.isDigit = true := by
  unfold parseNum at h
  cases hli : lexInt (numRest t) with
  | none => rw [hli] at h; simp at h
  | some p =>
    rw [hli] at h
    obtain ⟨ip, r1⟩ := p
    dsimp only [] at h
    simp only [Option.some.injEq, Prod.mk.injEq] at h
    obtain ⟨hip, hine, hidig⟩ := lexInt_dec hli
    cases hlf : lexFrac r1 with
    | mk fp r2 =>
      cases hle : lexExp r2 with
      | mk ep r3 =>
        rw [hlf] at h
        dsimp only [] at h
        rw [hle] at h
        dsimp only [] at h
        have hr : r = r3 := h.2.symm
        have hcore : numRest t = (ip ++ fp ++ ep) ++ r ∧ ip ++ fp ++ ep ≠ [] ∧
            ∃ c, (ip ++ fp ++ ep).getLast? = some c ∧ c.isDigit = true := by
          rcases lexFrac_dec hlf with ⟨hfp, hr2⟩ | ⟨hdec, hfne, hflast⟩ <;>
            rcases lexExp_dec hle with ⟨hep, hr3⟩ | ⟨hdece, hene, helast⟩
          · subst hfp; subst hep
            refine ⟨?_, by simp [hine], ?_⟩
            · rw [hip, hr, hr3, hr2]
              simp
            · simp only [List.append_nil]
              exact exists_last_digit hine hidig
          · subst hfp
            refine ⟨?_, by simp [hine], ?_⟩
            · rw [hip, ← hr2, hdece, hr]
              simp [List.append_assoc]
            · simp only [List.append_nil, List.nil_append]
              obtain ⟨c, hc, hd⟩ := helast
              exact ⟨c, by rw [getLastQ_app _ _ hene]; exact hc, hd⟩
          · subst hep
            refine ⟨?_, by simp [hine], ?_⟩
            · rw [hip, hdec, hr, hr3]
              simp [List.append_assoc]
            · simp only [List.append_nil]
              obtain ⟨c, hc, hd⟩ := hflast
              exact ⟨c, by rw [getLastQ_app ip fp hfne]; exact hc, hd⟩
          · refine ⟨?_, by simp [hine], ?_⟩
            · rw [hip, hdec, hdece, hr]
              simp [List.append_assoc]
            · obtain ⟨c, hc, hd⟩ := helast
              refine ⟨c, ?_, hd⟩
              rw [getLastQ_app _ _ hene]
              exact hc
        obtain ⟨hteq, hcne, hclast⟩ := hcore
        cases t with
        | nil =>
          exfalso
          have : numRest ([] : List Char) = [] := rfl
          rw [this] at hli
          simp [lexInt] at hli
        | cons c0 u =>
          by_cases hc0 : c0 = '-'
          · subst hc0
            have hnr : numRest ('-' :: u) = u := rfl
            rw [hnr] at hteq
            refine ⟨'-' :: (ip ++ fp ++ ep), ?_, by simp, ?_⟩
            · rw [hteq]
              rfl
            · obtain ⟨c, hc, hd⟩ := hclast
              refine ⟨c, ?_, hd⟩
              have : ('-' :: (ip ++ fp ++ ep)) = ['-'] ++ (ip ++ fp ++ ep) := rfl
              rw [this, getLastQ_app _ _ hcne]
              exact hc
          · rw [numRest_cons u hc0] at hteq
            exact ⟨ip ++ fp ++ ep, hteq, hcne, hclast⟩

/-- A successful atom match consumes exactly the literal. -/
theorem expectAtom_dec {lit : List Char} {v0 v : PyVal} {t r : List Char}
    (h : expectAtom lit v0 t = some (v, r)) : t = lit ++ r ∧ v = v0 := by
  unfold expectAtom at h
  split at h
  · rename_i hpre
    obtain ⟨u, hu⟩ := isPrefixOf_ex hpre
    simp only [Option.some.injEq, Prod.mk.injEq] at h
    subst hu
    rw [List.drop_left] at h
    exact ⟨by rw [← h.2], h.1.symm⟩
  · simp at h

/-- Splitting off the whitespace skipped by the parser. -/
theorem ws_decomp {s t : List Char} (h : s.dropWhile isJsonWs = t) :
    ∃ w, s = w ++ t ∧ ∀ c ∈ w, isJsonWs c = true :=
  ⟨s.takeWhile isJsonWs, by rw [← h, List.takeWhile_append_dropWhile],
   fun c hc => List.mem_takeWhile_imp hc⟩

/-- A list with a known non-whitespace last element satisfies `lastNonWs`. -/
theorem lastNonWs_concrete {X : List Char} {d : Char} (h : X.getLast? = some d)
    (hd : isPyWs d = false) : lastNonWs X := by
  intro c hc
  rw [h] at hc
  injection hc with hc
  subst hc
  exact hd

/-- `lastNonWs` is preserved by consing onto a nonempty list. -/
theorem lastNonWs_cons {L : List Char} (a : Char) (hL : L ≠ []) (h : lastNonWs L) :
    lastNonWs (a :: L) := by
  intro c hc
  rw [show (a :: L) = [a] ++ L from rfl, getLastQ_app _ _ hL] at hc
  exact h c hc

set_option maxHeartbeats 1000000 in
/-- Joint decomposition invariant of the five mutually recursive parser
functions: whatever text a successful parse consumes is nonempty and
does not end in Python whitespace. -/
theorem parse_dec : ∀ n : Nat,
    (∀ s v r, parseVal n s = some (v, r) →
      ∃ X, s = X ++ r ∧ X ≠ [] ∧ lastNonWs X) ∧
    (∀ s v r, parseArrayBody n s = some (v, r) →
      ∃ X, s = X ++ r ∧ X ≠ [] ∧ lastNonWs X) ∧
    (∀ s vs r, parseItems n s = some (vs, r) →
      ∃ X, s = X ++ r ∧ X ≠ [] ∧ lastNonWs X) ∧
    (∀ s v r, parseObjBody n s = some (v, r) →
      ∃ X, s = X ++ r ∧ X ≠ [] ∧ lastNonWs X) ∧
    (∀ s ms r, parseMembers n s = some (ms, r) →
      ∃ X, s = X ++ r ∧ X ≠ [] ∧ lastNonWs X) := by
  intro n
  induction n with
  | zero =>
    refine ⟨?_, ?_, ?_, ?_, ?_⟩ <;>
      (intro s a r h;
       exact absurd h (by simp [parseVal, parseArrayBody, parseItems, parseObjBody, parseMembers]))
  | succ n ih =>
    obtain ⟨ihV, ihA, ihI, ihO, ihM⟩ := ih
    refine ⟨?_, ?_, ?_, ?_, ?_⟩
    · -- parseVal
      intro s v r h
      simp only [parseVal] at h
      cases hdw : s.dropWhile isJsonWs with
      | nil => rw [hdw] at h; simp at h
      | cons c r2 =>
        rw [hdw] at h
        dsimp only [] at h
        obtain ⟨w, hw, hwall⟩ := ws_decomp hdw
        split at h
        · rename_i hc
          subst hc
          obtain ⟨hdec, _⟩ := expectAtom_dec h
          refine ⟨w ++ ['n', 'u', 'l', 'l'], ?_, by simp,
            lastNonWs_app (by simp) (lastNonWs_concrete rfl (by decide))⟩
          rw [hw, hdec, List.append_assoc]
        · split at h
          · rename_i hc
            subst hc
            obtain ⟨hdec, _⟩ := expectAtom_dec h
            refine ⟨w ++ ['t', 'r', 'u', 'e'], ?_, by simp,
              lastNonWs_app (by simp) (lastNonWs_concrete rfl (by decide))⟩
            rw [hw, hdec, List.append_assoc]
          · split at h
            · rename_i hc
              subst hc
              obtain ⟨hdec, _⟩ := expectAtom_dec h
              refine ⟨w ++ ['f', 'a', 'l', 's', 'e'], ?_, by simp,
                lastNonWs_app (by simp) (lastNonWs_concrete rfl (by decide))⟩
              rw [hw, hdec, List.append_assoc]
            · split at h
              · rename_i hc
                subst hc
                obtain ⟨hdec, _⟩ := expectAtom_dec h
                refine ⟨w ++ ['N', 'a', 'N'], ?_, by simp,
                  lastNonWs_app (by simp) (lastNonWs_concrete rfl (by decide))⟩
                rw [hw, hdec, List.append_assoc]
              · split at h
                · rename_i hc
                  subst hc
                  obtain ⟨hdec, _⟩ := expectAtom_dec h
                  refine ⟨w ++ ['I', 'n', 'f', 'i', 'n', 'i', 't', 'y'], ?_, by simp,
                    lastNonWs_app (by simp) (lastNonWs_concrete rfl (by decide))⟩
                  rw [hw, hdec, List.append_assoc]
                · split at h
                  · rename_i hc
                    subst hc
                    cases hps : parseStrBody r2 with
                    | none => rw [hps] at h; simp at h
                    | some p =>
                      rw [hps] at h
                      obtain ⟨cs, rest⟩ := p
                      dsimp only [] at h
                      simp only [Option.some.injEq, Prod.mk.injEq] at h
                      obtain ⟨Xs, hX1, hX2, hX3⟩ := parseStrBody_dec hps
                      refine ⟨w ++ ('"' :: Xs), ?_, by simp, ?_⟩
                      · rw [hw, hX1, h.2]
                        simp
                      · exact lastNonWs_app (by simp)
                          (lastNonWs_cons _ hX2 (lastNonWs_concrete hX3 (by decide)))
                  · split at h
                    · rename_i hc
                      subst hc
                      obtain ⟨Xa, hX1, hX2, hX3⟩ := ihA r2 v r h
                      refine ⟨w ++ ('[' :: Xa), ?_, by simp, ?_⟩
                      · rw [hw, hX1]
                        simp
                      · exact lastNonWs_app (by simp) (lastNonWs_cons _ hX2 hX3)
                    · split at h
                      · rename_i hc
                        subst hc
                        obtain ⟨Xo, hX1, hX2, hX3⟩ := ihO r2 v r h
                        refine ⟨w ++ ('{' :: Xo), ?_, by simp, ?_⟩
                        · rw [hw, hX1]
                          simp
                        · exact lastNonWs_app (by simp) (lastNonWs_cons _ hX2 hX3)
                      · split at h
                        · rename_i hc
                          subst hc
                          split at h
                          · obtain ⟨hdec, _⟩ := expectAtom_dec h
                            refine ⟨w ++ ['-', 'I', 'n', 'f', 'i', 'n', 'i', 't', 'y'], ?_, by simp,
                              lastNonWs_app (by simp) (lastNonWs_concrete rfl (by decide))⟩
                            rw [hw, hdec, List.append_assoc]
                          · obtain ⟨Xn, hX1, hX2, hX3⟩ := parseNum_dec h
                            refine ⟨w ++ Xn, ?_, by simp [hX2], ?_⟩
                            · rw [hw, hX1, List.append_assoc]
                            · exact lastNonWs_app hX2 (lastNonWs_of_last_digit hX3)
                        · split at h
                          · obtain ⟨Xn, hX1, hX2, hX3⟩ := parseNum_dec h
                            refine ⟨w ++ Xn, ?_, by simp [hX2], ?_⟩
                            · rw [hw, hX1, List.append_assoc]
                            · exact lastNonWs_app hX2 (lastNonWs_of_last_digit hX3)
                          · exact absurd h (by simp)
    · -- parseArrayBody
      intro s v r h
      simp only [parseArrayBody] at h
      split at h
      · rename_i rest heq
        simp only [Option.some.injEq, Prod.mk.injEq] at h
        obtain ⟨w, hw, hwall⟩ := ws_decomp heq
        refine ⟨w ++ [']'], ?_, by simp,
          lastNonWs_app (by simp) (lastNonWs_concrete rfl (by decide))⟩
        rw [hw, h.2]
        simp
      · cases hpi : parseItems n s with
        | none => rw [hpi] at h; simp at h
        | some p =>
          rw [hpi] at h
          obtain ⟨vs, rest⟩ := p
          dsimp only [] at h
          simp only [Option.some.injEq, Prod.mk.injEq] at h
          rw [h.2] at hpi
          exact ihI s vs r hpi
    · -- parseItems
      intro s vs r h
      simp only [parseItems] at h
      cases hpv : parseVal n s with
      | none => rw [hpv] at h; simp at h
      | some p =>
        rw [hpv] at h
        obtain ⟨v0, r0⟩ := p
        dsimp only [] at h
        obtain ⟨X1, hs1, hX1ne, hX1l⟩ := ihV s v0 r0 hpv
        split at h
        · rename_i r5 heq
          cases hpi : parseItems n r5 with
          | none => rw [hpi] at h; simp at h
          | some q =>
            rw [hpi] at h
            obtain ⟨vs5, r6⟩ := q
            dsimp only [] at h
            simp only [Option.some.injEq, Prod.mk.injEq] at h
            rw [h.2] at hpi
            obtain ⟨X2, hs2, hX2ne, hX2l⟩ := ihI r5 vs5 r hpi
            obtain ⟨w2, hw2, hwall2⟩ := ws_decomp heq
            refine ⟨X1 ++ (w2 ++ (',' :: X2)), ?_, by simp, ?_⟩
            · rw [hs1, hw2, hs2]
              simp
            · exact lastNonWs_app (by simp)
                (lastNonWs_app (by simp) (lastNonWs_cons _ hX2ne hX2l))
        · rename_i r5 heq
          simp only [Option.some.injEq, Prod.mk.injEq] at h
          obtain ⟨w2, hw2, hwall2⟩ := ws_decomp heq
          refine ⟨X1 ++ (w2 ++ [']']), ?_, by simp, ?_⟩
          · rw [hs1, hw2, h.2]
            simp
          · exact lastNonWs_app (by simp)
              (lastNonWs_app (by simp) (lastNonWs_concrete rfl (by decide)))
        · exact absurd h (by simp)
    · -- parseObjBody
      intro s v r h
      simp only [parseObjBody] at h
      split at h
      · rename_i rest heq
        simp only [Option.some.injEq, Prod.mk.injEq] at h
        obtain ⟨w, hw, hwall⟩ := ws_decomp heq
        refine ⟨w ++ ['}'], ?_, by simp,
          lastNonWs_app (by simp) (lastNonWs_concrete rfl (by decide))⟩
        rw [hw, h.2]
        simp
      · cases hpm : parseMembers n s with
        | none => rw [hpm] at h; simp at h
        | some p =>
          rw [hpm] at h
          obtain ⟨kvs, rest⟩ := p
          dsimp only [] at h
          simp only [Option.some.injEq, Prod.mk.injEq] at h
          rw [h.2] at hpm
          exact ihM s kvs r hpm
    · -- parseMembers
      intro s ms r h
      simp only [parseMembers] at h
      split at h
      · rename_i r1 heq
        obtain ⟨w, hw, hwall⟩ := ws_decomp heq
        cases hps : parseStrBody r1 with
        | none => rw [hps] at h; simp at h
        | some p =>
          rw [hps] at h
          obtain ⟨k, r2⟩ := p
          dsimp only [] at h
          obtain ⟨Xs, hk1, hk2, hk3⟩ := parseStrBody_dec hps
          split at h
          · rename_i r3 heq2
            obtain ⟨w2, hw2, hwall2⟩ := ws_decomp heq2
            cases hpv : parseVal n r3 with
            | none => rw [hpv] at h; simp at h
            | some q =>
              rw [hpv] at h
              obtain ⟨v0, r4⟩ := q
              dsimp only [] at h
              obtain ⟨Xv, hv1, hv2, hv3⟩ := ihV r3 v0 r4 hpv
              split at h
              · rename_i r5 heq3
                obtain ⟨w3, hw3, hwall3⟩ := ws_decomp heq3
                cases hpm : parseMembers n r5 with
                | none => rw [hpm] at h; simp at h
                | some q2 =>
                  rw [hpm] at h
                  obtain ⟨ms5, r6⟩ := q2
                  dsimp only [] at h
                  simp only [Option.some.injEq, Prod.mk.injEq] at h
                  rw [h.2] at hpm
                  obtain ⟨Xm, hm1, hm2, hm3⟩ := ihM r5 ms5 r hpm
                  refine ⟨w ++ ('"' :: (Xs ++ (w2 ++ (':' :: (Xv ++ (w3 ++ (',' :: Xm))))))),
                    ?_, by simp, ?_⟩
                  · rw [hw, hk1, hw2, hv1, hw3, hm1]
                    simp
                  · exact lastNonWs_app (by simp) (lastNonWs_cons _ (by simp)
                      (lastNonWs_app (by simp) (lastNonWs_app (by simp) (lastNonWs_cons _ (by simp)
                        (lastNonWs_app (by simp) (lastNonWs_app (by simp)
                          (lastNonWs_cons _ hm2 hm3)))))))
              · rename_i r5 heq3
                obtain ⟨w3, hw3, hwall3⟩ := ws_decomp heq3
                simp only [Option.some.injEq, Prod.mk.injEq] at h
                refine ⟨w ++ ('"' :: (Xs ++ (w2 ++ (':' :: (Xv ++ (w3 ++ ['}'])))))),
                  ?_, by simp, ?_⟩
                · rw [hw, hk1, hw2, hv1, hw3, h.2]
                  simp
                · exact lastNonWs_app (by simp) (lastNonWs_cons _ (by simp)
                    (lastNonWs_app (by simp) (lastNonWs_app (by simp) (lastNonWs_cons _ (by simp)
                      (lastNonWs_app (by simp) (lastNonWs_app (by simp)
                        (lastNonWs_concrete rfl (by decide))))))))
              · exact absurd h (by simp)
          · exact absurd h (by simp)
      · exact absurd h (by simp)

/-- A successful value parse begins at a value-starter character. -/
theorem parseVal_starter {n : Nat} {s : List Char} {v : PyVal} {r : List Char}
    (h : parseVal n s = some (v, r)) :
    ∃ c r2, s.dropWhile isJsonWs = c :: r2 ∧ isStarter c = true := by
  cases n with
  | zero => exact absurd h (by simp [parseVal])
  | succ n =>
    simp only [parseVal] at h
    cases hdw : s.dropWhile isJsonWs with
    | nil => rw [hdw] at h; simp at h
    | cons c r2 =>
      rw [hdw] at h
      dsimp only [] at h
      refine ⟨c, r2, rfl, ?_⟩
      split at h
      · rename_i hc; subst hc; decide
      · split at h
        · rename_i hc; subst hc; decide
        · split at h
          · rename_i hc; subst hc; decide
          · split at h
            · rename_i hc; subst hc; decide
            · split at h
              · rename_i hc; subst hc; decide
              · split at h
                · rename_i hc; subst hc; decide
                · split at h
                  · rename_i hc; subst hc; decide
                  · split at h
                    · rename_i hc; subst hc; decide
                    · split at h
                      · rename_i hc; subst hc; decide
                      · split at h
                        · rename_i hd
                          simp [isStarter, hd]
                        · exact absurd h (by simp)

/-- The first character kept by `dropWhile` fails the predicate. -/
theorem dropWhile_head_false (p : Char → Bool) :
    ∀ (l : List Char) c r, l.dropWhile p = c :: r → p c = false := by
  intro l
  induction l with
  | nil => intro c r h; simp at h
  | cons x xs ih =>
    intro c r h
    rw [List.dropWhile_cons] at h
    by_cases hx : p x = true
    · rw [if_pos hx] at h
      exact ih c r h
    · rw [if_neg hx] at h
      injection h with h1 _
      subst h1
      simpa using hx

/-- Right-stripping decomposes a list into the kept part and a dropped
all-whitespace tail. -/
theorem rev_strip_decomp (u : List Char) :
    ∃ w, u = ((u.reverse.dropWhile isJsonWs).reverse) ++ w ∧
      ∀ c ∈ w, isJsonWs c = true := by
  refine ⟨(u.reverse.takeWhile isJsonWs).reverse, ?_, ?_⟩
  · calc u = u.reverse.reverse := (List.reverse_reverse u).symm
    _ = (u.reverse.takeWhile isJsonWs ++ u.reverse.dropWhile isJsonWs).reverse := by
        rw [List.takeWhile_append_dropWhile]
    _ = (u.reverse.dropWhile isJsonWs).reverse ++ (u.reverse.takeWhile isJsonWs).reverse := by
        rw [List.reverse_append]
  · intro c hc
    rw [List.mem_reverse] at hc
    exact List.mem_takeWhile_imp hc

/-- `jsonTrim` splits the input into whitespace margins around the kept core. -/
theorem jsonTrim_decomp (s : List Char) :
    ∃ w1 w2, s = w1 ++ (jsonTrim s ++ w2) ∧
      (∀ c ∈ w1, isJsonWs c = true) ∧ (∀ c ∈ w2, isJsonWs c = true) := by
  obtain ⟨w, hu, hw⟩ := rev_strip_decomp (s.dropWhile isJsonWs)
  have hu2 : s.dropWhile isJsonWs = jsonTrim s ++ w := hu
  refine ⟨s.takeWhile isJsonWs, w, ?_, fun c hc => List.mem_takeWhile_imp hc, hw⟩
  calc s = s.takeWhile isJsonWs ++ s.dropWhile isJsonWs := by
        rw [List.takeWhile_append_dropWhile]
  _ = s.takeWhile isJsonWs ++ (jsonTrim s ++ w) := by rw [hu2]

/-- The trimmed text has no leading JSON whitespace. -/
theorem trim_no_lead (s : List Char) :
    (jsonTrim s).dropWhile isJsonWs = jsonTrim s := by
  cases ht : jsonTrim s with
  | nil => rfl
  | cons d t2 =>
    obtain ⟨w, hu, hw⟩ := rev_strip_decomp (s.dropWhile isJsonWs)
    have hueq : s.dropWhile isJsonWs = jsonTrim s ++ w := hu
    rw [ht] at hueq
    have hd : isJsonWs d = false :=
      dropWhile_head_false isJsonWs s d (t2 ++ w) (by rw [hueq]; rfl)
    exact dropWhile_cons_neg isJsonWs d t2 hd

/-- Facts available whenever `json.loads` succeeds: Python-stripping
agrees with JSON-trimming, the trimmed text starts at a value-starter
character, and the trimmed text parses to the same value. -/
theorem loads_trim_facts {s : List Char} {v : PyVal} (h : loads s = some v) :
    pyStrip s = jsonTrim s ∧
    (∃ c r2, jsonTrim s = c :: r2 ∧ isStarter c = true) ∧
    loads (jsonTrim s) = some v := by
  unfold loads at h
  dsimp only [] at h
  split at h
  case _ v0 heq =>
    injection h with h
    subst h
    obtain ⟨c, r2, hdw, hst⟩ := parseVal_starter heq
    have hnl := trim_no_lead s
    have ht : jsonTrim s = c :: r2 := hnl.symm.trans hdw
    obtain ⟨X, hX, hXne, hXl⟩ := (parse_dec _).1 _ _ _ heq
    rw [List.append_nil] at hX
    have hlt : lastNonWs (jsonTrim s) := by rw [hX]; exact hXl
    obtain ⟨w1, w2, hs, hw1, hw2⟩ := jsonTrim_decomp s
    have hcs : isPyWs c = false := isStarter_not_pyws hst
    have hlast : ∃ e t2, (jsonTrim s).reverse = e :: t2 ∧ isPyWs e = false := by
      cases hrev : (jsonTrim s).reverse with
      | nil =>
        rw [List.reverse_eq_nil_iff, ht] at hrev
        exact absurd hrev (by simp)
      | cons e t2 =>
        have he : (jsonTrim s).getLast? = some e := by
          rw [← List.head?_reverse, hrev]
          rfl
        exact ⟨e, t2, rfl, hlt e he⟩
    have hL : pyStripLeft s = jsonTrim s ++ w2 := by
      unfold pyStripLeft
      conv_lhs => rw [hs]
      rw [dropWhile_all_app isPyWs w1 _
        (fun x hx => isPyWs_of_isJsonWs (hw1 x hx)), ht]
      simp only [List.cons_append]
      exact dropWhile_cons_neg isPyWs c (r2 ++ w2) hcs
    have hR : pyStripRight (jsonTrim s ++ w2) = jsonTrim s := by
      unfold pyStripRight
      rw [List.reverse_append]
      rw [dropWhile_all_app isPyWs w2.reverse _
        (fun x hx => isPyWs_of_isJsonWs (hw2 x (List.mem_reverse.mp hx)))]
      obtain ⟨e, t2, hrev, hpe⟩ := hlast
      rw [hrev, dropWhile_cons_neg isPyWs e t2 hpe, ← hrev, List.reverse_reverse]
    have hps : pyStrip s = jsonTrim s := by
      unfold pyStrip
      rw [hL, hR]
    have hjt : jsonTrim (jsonTrim s) = jsonTrim s := by
      show (((jsonTrim s).dropWhile isJsonWs).reverse.dropWhile isJsonWs).reverse = jsonTrim s
      rw [hnl]
      obtain ⟨e, t2, hrev, hpe⟩ := hlast
      have hje : isJsonWs e = false := by
        cases hj : isJsonWs e
        · rfl
        · exact absurd (isPyWs_of_isJsonWs hj) (by simp [hpe])
      rw [hrev, dropWhile_cons_neg isJsonWs e t2 hje, ← hrev, List.reverse_reverse]
    refine ⟨hps, ⟨c, r2, ht, hst⟩, ?_⟩
    unfold loads
    dsimp only []
    rw [hjt, heq]
  all_goals exact absurd h (by simp)

/-- `json.loads` succeeds on the Python-stripped text whenever it
succeeds on the raw text, with the same value. -/
theorem loads_strip {s : List Char} {v : PyVal} (h : loads s = some v) :
    loads (pyStrip s) = some v := by
  obtain ⟨hps, _, hl⟩ := loads_trim_facts h
  rw [hps]
  exact hl

/-- When the raw text already parses, cleaning is just stripping: the
stripped text starts at a JSON value-starter, never at a backtick, so
the fence-removal branch is not taken. -/
theorem cleanJson_of_loads {s : List Char} {v : PyVal} (h : loads s = some v) :
    cleanJson s = pyStrip s := by
  obtain ⟨hps, ⟨c, r2, ht, hst⟩, _⟩ := loads_trim_facts h
  have hnp : ¬(tickPat.isPrefixOf (pyStrip s) = true) := by
    intro hpre
    rw [hps, ht] at hpre
    simp only [tickPat, List.isPrefixOf, Bool.and_eq_true, beq_iff_eq] at hpre
    exact isStarter_ne_tick hst hpre.1.symm
  unfold cleanJson
  dsimp only []
  rw [if_neg hnp]

/-- C5: the two-attempt parse strategy of the daily planner (try
`json.loads` on the raw text, then on the cleaned text) and the
single-attempt strategy of calc_co2 and the food classifier
(`json.loads` on the cleaned text only) agree on every raw model text:
both fail, or both succeed with the same parsed value. -/
theorem C5_parse_strategies_equiv (raw : List Char) :
    twoAttempt raw = oneAttempt raw := by
  unfold twoAttempt oneAttempt
  cases h : loads raw with
  | none => rfl
  | some v => rw [cleanJson_of_loads h, loads_strip h]

/-- No occurrence of `pat` anywhere in `s`. -/
def noOccur (pat s : List Char) : Prop := ¬ ∃ a b, s = a ++ (pat ++ b)

/-- The replacement scan leaves the empty string unchanged. -/
theorem replaceAllAux_nil : ∀ (n : Nat) (pat rep : List Char),
    replaceAllAux n [] pat rep = [] := by
  intro n pat rep
  cases n with
  | zero => rfl
  | succ n =>
    unfold replaceAllAux
    split
    · rename_i hc
      obtain ⟨u, hu⟩ := isPrefixOf_ex hc.2
      cases pat with
      | nil => exact absurd rfl hc.1
      | cons p ps => simp at hu
    · rfl

/-- The replacement scan is the identity when the pattern never occurs. -/
theorem replaceAllAux_no_occur : ∀ (n : Nat) (s pat rep : List Char),
    noOccur pat s → replaceAllAux n s pat rep = s := by
  intro n
  induction n with
  | zero => intro s pat rep _; rfl
  | succ n ih =>
    intro s pat rep hno
    unfold replaceAllAux
    split
    · rename_i hc
      obtain ⟨u, hu⟩ := isPrefixOf_ex hc.2
      exact absurd ⟨[], u, hu⟩ hno
    · cases s with
      | nil => rfl
      | cons c rest =>
        show c :: replaceAllAux n rest pat rep = c :: rest
        rw [ih rest pat rep]
        intro ⟨a, b, hab⟩
        exact hno ⟨c :: a, b, by rw [hab]; rfl⟩

/-- The scan steps over one character when the pattern does not match here. -/
theorem replaceAllAux_step_no_match (n : Nat) (c : Char) (rest pat rep : List Char)
    (hcond : ¬(pat ≠ [] ∧ pat.isPrefixOf (c :: rest) = true)) :
    replaceAllAux (n + 1) (c :: rest) pat rep = c :: replaceAllAux n rest pat rep := by
  conv_lhs => rw [replaceAllAux.eq_def]
  dsimp only []
  rw [if_neg hcond]

/-- The scan consumes a leading pattern occurrence in one step. -/
theorem replaceAllAux_match_step (n : Nat) (pat t rep : List Char) (hp : pat ≠ []) :
    replaceAllAux (n + 1) (pat ++ t) pat rep = rep ++ replaceAllAux n t pat rep := by
  conv_lhs => rw [replaceAllAux.eq_def]
  dsimp only []
  rw [if_pos ⟨hp, isPrefixOf_app pat t⟩, List.drop_left]

/-- Unfolding of `replaceAll` when the text starts with the pattern. -/
theorem replaceAll_strip_head (pat t rep : List Char) (hp : pat ≠ []) :
    replaceAll (pat ++ t) pat rep =
      rep ++ replaceAllAux (pat.length + t.length - 1) t pat rep := by
  unfold replaceAll
  have hlen : (pat ++ t).length = (pat.length + t.length - 1) + 1 := by
    cases pat with
    | nil => exact absurd rfl hp
    | cons p q => simp [List.length_append]
  rw [hlen]
  exact replaceAllAux_match_step _ _ _ _ hp

/-- The replacement scan walks over a segment free of the pattern's
first character, then continues on the tail with the remaining fuel. -/
theorem replaceAllAux_skip : ∀ (body : List Char) (n : Nat) (tail pat rep : List Char)
    (p : Char) (q : List Char), pat = p :: q → p ∉ body →
    body.length + tail.length ≤ n →
    replaceAllAux n (body ++ tail) pat rep =
      body ++ replaceAllAux (n - body.length) tail pat rep := by
  intro body
  induction body with
  | nil => intro n tail pat rep p q hp hm hlen; simp
  | cons c bodyr ih =>
    intro n tail pat rep p q hp hm hlen
    cases n with
    | zero => simp at hlen
    | succ n =>
      have hpc : p ≠ c := by
        intro hpc
        exact hm (by rw [hpc]; simp)
      have hcond : ¬(pat ≠ [] ∧ pat.isPrefixOf ((c :: bodyr) ++ tail) = true) := by
        intro hc
        obtain ⟨u, hu⟩ := isPrefixOf_ex hc.2
        rw [hp] at hu
        simp only [List.cons_append] at hu
        injection hu with h1 _
        exact hpc h1.symm
      rw [List.cons_append, replaceAllAux_step_no_match n c (bodyr ++ tail) pat rep
        (by rw [List.cons_append] at hcond; exact hcond)]
      rw [ih n tail pat rep p q hp (fun hmem => hm (by simp [hmem]))
        (by simp at hlen; omega)]
      simp [List.length_cons, Nat.succ_sub_succ]

/-- Visible fuel makes the exact-fence step compute. -/
theorem replaceAllAux_fence_exact : ∀ (n : Nat), 1 ≤ n →
    replaceAllAux n tickPat tickPat [] = [] := by
  intro n hn
  cases n with
  | zero => simp at hn
  | succ n =>
    unfold replaceAllAux
    rw [if_pos ⟨by decide, by decide⟩]
    rw [show tickPat.drop tickPat.length = [] from rfl]
    rw [replaceAllAux_nil]
    rfl

/-- A pattern starting with a character that `body` avoids cannot occur
in `body ++ tail` when `tail` is shorter than the pattern. -/
theorem noOccur_tail_short {pat : List Char} {p : Char} {q body tail : List Char}
    (hp : pat = p :: q) (hm : p ∉ body) (hlen : tail.length < pat.length) :
    noOccur pat (body ++ tail) := by
  intro ⟨a, b, hab⟩
  rcases List.append_eq_append_iff.mp hab with ⟨k, hk1, hk2⟩ | ⟨k, hk1, hk2⟩
  · have : tail.length = k.length + (pat.length + b.length) := by
      rw [hk2]
      simp [List.length_append]
    omega
  · cases k with
    | nil =>
      have : tail.length = pat.length + b.length := by
        rw [List.nil_append] at hk2
        rw [← hk2]
        simp
      omega
    | cons k0 kr =>
      rw [hp] at hk2
      rw [List.cons_append, List.cons_append] at hk2
      injection hk2 with h1 _
      exact hm (by rw [hk1, h1]; simp)

/-- A backtick-headed segment cannot equal a backtick-free body followed
by anything. -/
theorem split_head_tick {body tail b P : List Char}
    (hP : ∃ Q, P = '`' :: Q) (hnb : '`' ∉ body) (hne : body ≠ [])
    (h : P ++ b = body ++ tail) : False := by
  rcases List.append_eq_append_iff.mp h with ⟨m, hm1, hm2⟩ | ⟨m, hm1, hm2⟩
  · obtain ⟨Q, hQ⟩ := hP
    exact hnb (by rw [hm1, hQ]; simp)
  · obtain ⟨Q, hQ⟩ := hP
    cases body with
    | nil => exact hne rfl
    | cons b0 br =>
      rw [hQ, List.cons_append] at hm1
      injection hm1 with h1 _
      exact hnb (by rw [← h1]; simp)

/-- `` ```json `` does not occur in a backtick-free body followed by a
bare fence. -/
theorem noOccur_json_tail {body : List Char} (hnb : '`' ∉ body) :
    noOccur tickJsonPat (body ++ tickPat) :=
  noOccur_tail_short rfl hnb (by decide)

/-- `` ```json `` does not occur in a bare-fenced text whose body is
nonempty, backtick-free and does not begin with `json`. -/
theorem noOccur_json_fenced {body : List Char} (hnb : '`' ∉ body)
    (hne : body ≠ [])
    (hnj : (('j' :: 's' :: 'o' :: 'n' :: []).isPrefixOf body) = false) :
    noOccur tickJsonPat (tickPat ++ (body ++ tickPat)) := by
  intro ⟨a, b, hab⟩
  rcases List.append_eq_append_iff.mp hab with ⟨k, hk1, hk2⟩ | ⟨k, hk1, hk2⟩
  · exact noOccur_json_tail hnb ⟨k, b, hk2⟩
  · rcases a with _ | ⟨a0, _ | ⟨a1, _ | ⟨a2, _ | ⟨a3, ar⟩⟩⟩⟩
    · have hk : k = tickPat := by simpa using hk1.symm
      subst hk
      simp only [tickJsonPat, tickPat, List.cons_append, List.nil_append] at hk2
      injection hk2 with _ hk2
      injection hk2 with _ hk2
      injection hk2 with _ hk2
      rcases List.append_eq_append_iff.mp
        (show ('j' :: 's' :: 'o' :: 'n' :: []) ++ b =
          body ++ ('`' :: '`' :: '`' :: []) from hk2) with ⟨m, hm1, hm2⟩ | ⟨m, hm1, hm2⟩
      · rw [hm1] at hnj
        rw [isPrefixOf_app] at hnj
        exact absurd hnj (by simp)
      · cases m with
        | nil =>
          have hb : body = 'j' :: 's' :: 'o' :: 'n' :: [] := by
            rw [List.append_nil] at hm1
            exact hm1.symm
          rw [hb] at hnj
          exact absurd hnj (by decide)
        | cons m0 mr =>
          rw [List.cons_append] at hm2
          injection hm2 with h1 _
          have : ('`' : Char) ∈ ('j' :: 's' :: 'o' :: 'n' :: []) := by
            rw [hm1, h1]
            simp
          simp at this
    · simp only [tickPat, List.cons_append, List.nil_append] at hk1
      injection hk1 with _ hk1
      rw [← hk1] at hk2
      simp only [tickJsonPat, List.cons_append, List.nil_append] at hk2
      injection hk2 with _ hk2
      injection hk2 with _ hk2
      exact split_head_tick ⟨_, rfl⟩ hnb hne
        (show ('`' :: 'j' :: 's' :: 'o' :: 'n' :: []) ++ b =
          body ++ tickPat from hk2)
    · simp only [tickPat, List.cons_append, List.nil_append] at hk1
      injection hk1 with _ hk1
      injection hk1 with _ hk1
      rw [← hk1] at hk2
      simp only [tickJsonPat, List.cons_append, List.nil_append] at hk2
      injection hk2 with _ hk2
      exact split_head_tick ⟨_, rfl⟩ hnb hne
        (show ('`' :: '`' :: 'j' :: 's' :: 'o' :: 'n' :: []) ++ b =
          body ++ tickPat from hk2)
    · simp only [tickPat, List.cons_append, List.nil_append] at hk1
      injection hk1 with _ hk1
      injection hk1 with _ hk1
      injection hk1 with _ hk1
      rw [← hk1, List.nil_append] at hk2
      exact split_head_tick ⟨_, rfl⟩ hnb hne
        (show tickJsonPat ++ b = body ++ tickPat from hk2)
    · simp [tickPat] at hk1

/-- Evaluation of `_clean_json` on a well-formed fenced document: the
fences and optional `json` tag are removed and the body is stripped. -/
theorem cleanJson_fenced (raw tag body : List Char)
    (htag : tag = [] ∨ tag = ('j' :: 's' :: 'o' :: 'n' :: []))
    (hstrip : pyStrip raw = (tickPat ++ tag) ++ (body ++ tickPat))
    (hnb : '`' ∉ body)
    (hnj : (('j' :: 's' :: 'o' :: 'n' :: []).isPrefixOf body) = false)
    (hne : body ≠ []) :
    cleanJson raw = pyStrip body := by
  have hpre : tickPat.isPrefixOf (pyStrip raw) = true := by
    rw [hstrip, List.append_assoc]
    exact isPrefixOf_app tickPat _
  unfold cleanJson
  dsimp only []
  rw [if_pos hpre, hstrip]
  rcases htag with rfl | rfl
  · rw [List.append_nil]
    have h1 : replaceAll (tickPat ++ (body ++ tickPat)) tickJsonPat [] =
        tickPat ++ (body ++ tickPat) :=
      replaceAllAux_no_occur _ _ _ _ (noOccur_json_fenced hnb hne hnj)
    rw [h1, replaceAll_strip_head tickPat (body ++ tickPat) [] (by decide)]
    rw [replaceAllAux_skip body _ tickPat tickPat [] '`' ('`' :: '`' :: []) rfl hnb
      (by simp [tickPat, List.length_append]; omega)]
    rw [replaceAllAux_fence_exact _
      (by simp [tickPat, List.length_append]; omega)]
    rw [List.append_nil, List.nil_append]
  · have hTJ : tickPat ++ ('j' :: 's' :: 'o' :: 'n' :: []) = tickJsonPat := rfl
    rw [hTJ, replaceAll_strip_head tickJsonPat (body ++ tickPat) [] (by decide)]
    rw [replaceAllAux_no_occur _ _ _ _ (noOccur_json_tail hnb), List.nil_append]
    show pyStrip (replaceAllAux (body ++ tickPat).length (body ++ tickPat) tickPat []) =
      pyStrip body
    rw [replaceAllAux_skip body _ tickPat tickPat [] '`' ('`' :: '`' :: []) rfl hnb
      (by simp [tickPat, List.length_append])]
    rw [replaceAllAux_fence_exact _
      (by simp [tickPat, List.length_append])]
    rw [List.append_nil]

/-- C1 counterexample: a code-fence-wrapped JSON document whose body
contains a backtick fence inside a JSON string literal.  `str.replace`
deletes those inner backticks as well, so the cleanup-then-parse
pipeline recovers a different structure than parsing the unwrapped
document directly. -/
theorem C1_counterexample :
    pyStrip (("```json\n\x7b\"a\":\"x```y\"\x7d\n```").toList) =
      (tickPat ++ ('j' :: 's' :: 'o' :: 'n' :: [])) ++
        ((("\n\x7b\"a\":\"x```y\"\x7d\n").toList) ++ tickPat) ∧
    loads (("\n\x7b\"a\":\"x```y\"\x7d\n").toList) =
      some (.dict [(('a' :: []), .str ('x' :: '`' :: '`' :: '`' :: 'y' :: []))]) ∧
    oneAttempt (("```json\n\x7b\"a\":\"x```y\"\x7d\n```").toList) =
      some (.dict [(('a' :: []), .str ('x' :: 'y' :: []))]) ∧
    oneAttempt (("```json\n\x7b\"a\":\"x```y\"\x7d\n```").toList) ≠
      loads (("\n\x7b\"a\":\"x```y\"\x7d\n").toList) := by
  refine ⟨rfl, rfl, rfl, ?_⟩
  intro h
  have h2 : (some (PyVal.dict [(('a' :: []), PyVal.str ('x' :: 'y' :: []))]) : Option PyVal) =
      some (PyVal.dict [(('a' :: []), PyVal.str ('x' :: '`' :: '`' :: '`' :: 'y' :: []))]) := h
  simp at h2

/-- C1 (amended): for a model response that after stripping is a
code-fence-wrapped JSON document — `` ``` ``, an optional `json` tag,
a fence-free body that does not itself begin with `json`, and a closing
`` ``` `` — both parse strategies recover exactly the value of the
unwrapped body. -/
theorem C1_fenced_parse_amended (raw tag body : List Char) (v : PyVal)
    (htag : tag = [] ∨ tag = ('j' :: 's' :: 'o' :: 'n' :: []))
    (hstrip : pyStrip raw = (tickPat ++ tag) ++ (body ++ tickPat))
    (hnb : '`' ∉ body)
    (hnj : (('j' :: 's' :: 'o' :: 'n' :: []).isPrefixOf body) = false)
    (hbody : loads body = some v) :
    twoAttempt raw = some v ∧ oneAttempt raw = some v := by
  have hne : body ≠ [] := by
    intro h
    rw [h] at hbody
    have h2 : (Option.none : Option PyVal) = some v := hbody
    exact Option.noConfusion h2
  have hclean : cleanJson raw = pyStrip body :=
    cleanJson_fenced raw tag body htag hstrip hnb hnj hne
  have hone : oneAttempt raw = some v := by
    unfold oneAttempt
    rw [hclean]
    exact loads_strip hbody
  refine ⟨?_, hone⟩
  unfold twoAttempt
  cases hlr : loads raw with
  | none => exact hone
  | some u =>
    exfalso
    obtain ⟨hps, ⟨c, r2, ht, hst⟩, _⟩ := loads_trim_facts hlr
    rw [hps, ht] at hstrip
    have hc : c = '`' := by
      have h2 := hstrip
      simp only [tickPat, List.cons_append, List.nil_append, List.append_assoc,
        List.cons.injEq] at h2
      exact h2.1
    exact isStarter_ne_tick hst hc

/-- Witness: a well-formed `` ```json `` fenced response is recovered by
both strategies. -/
theorem C1_fenced_parse_amended_witness :
    twoAttempt (("```json\n\x7b\"a\": 1\x7d\n```").toList) =
      some (.dict [(('a' :: []), .int 1)]) ∧
    oneAttempt (("```json\n\x7b\"a\": 1\x7d\n```").toList) =
      some (.dict [(('a' :: []), .int 1)]) :=
  C1_fenced_parse_amended (("```json\n\x7b\"a\": 1\x7d\n```").toList)
    ('j' :: 's' :: 'o' :: 'n' :: []) (("\n\x7b\"a\": 1\x7d\n").toList)
    (PyVal.dict [(('a' :: []), PyVal.int 1)])
    (Or.inr rfl) rfl (by decide) (by decide) rfl
